import Mathlib

/-!
Verification of the core rules engine of a three-player "fight the landlord"
card game. The development shallowly embeds:

* the play classifier `analyzePlay` of `PlayValidationSystem.ts`
  (`analyzePlayData` below works on the card data directly);
* the beat rule `validatePlay` of `PlayValidationSystem.ts` and
  `canBeat` of `CardCombinationAnalyzer.ts`;
* the turn state machine (`handlePlay`, `handlePass` of
  `PlayValidationSystem.ts`, `handleBidRequest` of `BiddingSystem.ts`,
  the win check of `WinConditionSystem`);
* the strategic recommender of `StrategicPlayManager.ts`.

Rendering, sprites, selection highlighting, logging and the event
transport are outside the embedded state; only the round state, hands,
roles and the emitted game events are modelled.
-/

/-- Card data as in `components/index.ts` (`CardData`): id, suit, rank
string, numeric value, face-up flag.  There is no `entity` field on
`CardData`; this matters for `analyzePreservedCombinations` below. -/
structure Card where
  id : Nat
  suit : String
  rank : String
  value : Nat
  faceUp : Bool := false
deriving DecidableEq

instance : Inhabited Card := ⟨⟨0, "", "", 0, false⟩⟩

/-- Combination types, as the `CombinationType` enum shared by
`PlayValidationSystem.ts` and `CardCombinationAnalyzer.ts`. -/
inductive CombinationType where
  | invalid
  | single
  | pair
  | triple
  | tripleSingle
  | triplePair
  | straight
  | straightPair
  | plane
  | planeSingle
  | planePair
  | fourSingle
  | fourPair
  | bomb
  | rocket
deriving DecidableEq

/-- The string value of each enum member, as in the TypeScript enums. -/
def CombinationType.str : CombinationType → String
  | .invalid => "invalid"
  | .single => "single"
  | .pair => "pair"
  | .triple => "triple"
  | .tripleSingle => "triple_single"
  | .triplePair => "triple_pair"
  | .straight => "straight"
  | .straightPair => "straight_pair"
  | .plane => "plane"
  | .planeSingle => "plane_single"
  | .planePair => "plane_pair"
  | .fourSingle => "four_single"
  | .fourPair => "four_pair"
  | .bomb => "bomb"
  | .rocket => "rocket"

/-- Result of `PlayValidationSystem.analyzePlay`: a combination type, its
power, and the analyzed cards (the source stores the entity list; we keep
the card data, which has the same length). -/
structure PlayInfo where
  type : CombinationType
  power : Nat
  cards : List Card
deriving DecidableEq

/-- Comparison `a.value <= b.value`, the comparator `(a, b) => a.value - b.value`
used by the system to sort card data ascending by value. -/
def cardValueLE (a b : Card) : Prop := a.value ≤ b.value

instance : DecidableRel cardValueLE := fun a b => Nat.decLe a.value b.value

instance : IsTotal Card cardValueLE := ⟨fun a b => Nat.le_total a.value b.value⟩

instance : IsTrans Card cardValueLE := ⟨fun _ _ _ => Nat.le_trans⟩

/-- Sorting card data ascending by value (`cardDataList.sort((a, b) =>
a.value - b.value)`). -/
def sortByValue (l : List Card) : List Card := l.insertionSort cardValueLE

/-- Comparison `a <= b` on naturals as a sorting relation (used where the source
sorts plain value arrays). -/
def natLE (a b : Nat) : Prop := a ≤ b

instance : DecidableRel natLE := fun a b => Nat.decLe a b

instance : IsTotal Nat natLE := ⟨Nat.le_total⟩

instance : IsTrans Nat natLE := ⟨fun _ _ _ => Nat.le_trans⟩

/-- Sort a list of numeric values ascending. -/
def sortNat (l : List Nat) : List Nat := l.insertionSort natLE

/-- Indexing into a card list, `list[i]` of the source. -/
def nthCard (l : List Card) (i : Nat) : Card := l.getD i default

/-- The distinct ranks of a card list in first-occurrence order: the key
set of the `rankCounts` / `rankGroups` maps the source builds by
iterating the (sorted) card data. -/
def ranksDedup (l : List Card) : List String := (l.map (·.rank)).dedup

/-- How many cards of `l` carry rank `r` (`rankCounts.get(r)`). -/
def rankCount (l : List Card) (r : String) : Nat :=
  l.countP (fun c => decide (c.rank = r))

/-- The multiset of per-rank counts, in rank first-occurrence order
(the values iterated from the `rankCounts` map). -/
def rankCountsList (l : List Card) : List Nat :=
  (ranksDedup l).map (fun r => rankCount l r)

/-- The value of the first card whose rank is the last rank counted four
times: the source loops `for (const [rank, count] of rankCounts)`
overwriting `fourRank`, then takes
`cardDataList.find(card => card.rank === fourRank)!.value`.  The `none`
fallbacks are unreachable because the callers establish `hasFour`. -/
def fourOfAKindPower (sorted : List Card) : Nat :=
  match ((ranksDedup sorted).filter (fun r => rankCount sorted r == 4)).getLast? with
  | none => 0
  | some fr =>
    match sorted.find? (fun c => decide (c.rank = fr)) with
    | none => 0
    | some c => c.value

/-- Likewise for the rank counted three times (`tripleRank`). -/
def tripleOfAKindPower (sorted : List Card) : Nat :=
  match ((ranksDedup sorted).filter (fun r => rankCount sorted r == 3)).getLast? with
  | none => 0
  | some tr =>
    match sorted.find? (fun c => decide (c.rank = tr)) with
    | none => 0
    | some c => c.value

/-- The consecutive-run check the source performs with
`for (let i = 1; ...) if (v[i] !== v[i-1] + 1) ...` on an ascending
value list. -/
def consecVals : List Nat → Bool
  | [] => true
  | [_] => true
  | a :: b :: t => b == a + 1 && consecVals (b :: t)

/-- First-occurrence representative values of each rank, ascending: the
source takes `rankGroups.get(rank)![0]` per rank and sorts the
representatives by value. -/
def repValues (sorted : List Card) : List Nat :=
  sortNat ((ranksDedup sorted).filterMap
    (fun r => (sorted.find? (fun c => decide (c.rank = r))).map (·.value)))

/-- The sorted representative values of the ranks counted exactly three
times: the `tripleRanks` array of the plane section, sorted by value and
projected to values (only the values are consumed afterwards). -/
def tripleValsOf (sorted : List Card) : List Nat :=
  sortNat (((ranksDedup sorted).filter (fun r => rankCount sorted r == 3)).filterMap
    (fun r => (sorted.find? (fun c => decide (c.rank = r))).map (·.value)))

/-- The plane section of `analyzePlay` (consecutive triples, optionally
with one single or one pair per triple), ending in the final Invalid. -/
def planeCheck (cards sorted : List Card) : PlayInfo :=
  if 6 ≤ cards.length then
    let ranks := ranksDedup sorted
    let tripleRanks := ranks.filter (fun r => rankCount sorted r == 3)
    let nonTripleRanks := ranks.filter (fun r => rankCount sorted r != 3)
    if 2 ≤ tripleRanks.length then
      let tripleVals := tripleValsOf sorted
      if (tripleVals.filter (fun v => decide (v < 15))).length ≠ tripleVals.length then
        ⟨.invalid, 0, cards⟩
      else if consecVals tripleVals then
        let planeLength := tripleVals.length
        let planePower := tripleVals.getLastD 0
        if cards.length = planeLength * 3 then ⟨.plane, planePower, cards⟩
        else if cards.length = planeLength * 4 then
          if nonTripleRanks.all (fun r => rankCount sorted r == 1)
              ∧ nonTripleRanks.length = planeLength then
            ⟨.planeSingle, planePower, cards⟩
          else ⟨.invalid, 0, cards⟩
        else if cards.length = planeLength * 5 then
          if nonTripleRanks.all (fun r => rankCount sorted r == 2)
              ∧ nonTripleRanks.length = planeLength then
            ⟨.planePair, planePower, cards⟩
          else ⟨.invalid, 0, cards⟩
        else ⟨.invalid, 0, cards⟩
      else ⟨.invalid, 0, cards⟩
    else ⟨.invalid, 0, cards⟩
  else ⟨.invalid, 0, cards⟩

/-- The straight-pairs section of `analyzePlay` (3+ consecutive pairs,
excluding values 15 and up), falling through to the plane section. -/
def straightPairCheck (cards sorted : List Card) : PlayInfo :=
  if 6 ≤ cards.length ∧ cards.length % 2 = 0 then
    if (ranksDedup sorted).all (fun r => rankCount sorted r == 2) then
      let repVals := repValues sorted
      if (repVals.filter (fun v => decide (v < 15))).length ≠ repVals.length then
        ⟨.invalid, 0, cards⟩
      else if consecVals repVals ∧ 3 ≤ repVals.length then
        ⟨.straightPair, repVals.getLastD 0, cards⟩
      else planeCheck cards sorted
    else planeCheck cards sorted
  else planeCheck cards sorted

/-- The straight section of `analyzePlay` (5+ distinct consecutive
ranks, no jokers, no value 15 and up), falling through to the
straight-pairs section. -/
def straightCheck (cards sorted : List Card) : PlayInfo :=
  if 5 ≤ cards.length ∧ (ranksDedup sorted).length = cards.length then
    if sorted.any (fun c => decide (c.suit = "joker")) then ⟨.invalid, 0, cards⟩
    else if (sorted.filter (fun c => decide (c.value < 15))).length ≠ cards.length then
      ⟨.invalid, 0, cards⟩
    else if consecVals (sorted.map (·.value)) then
      ⟨.straight, (sorted.map (·.value)).getLastD 0, cards⟩
    else straightPairCheck cards sorted
  else straightPairCheck cards sorted

/-- Embedding of `PlayValidationSystem.analyzePlay`, acting on the card data of the
played entities (the entity-to-data lookup is handled by the callers
below).  The branch order is that of the source: rocket, bomb, four with
two singles, four with two pairs, single, pair, triple, triple+single,
triple+pair, straight, straight pairs, plane variants, invalid. -/
def analyzePlayData (cards : List Card) : PlayInfo :=
  if cards.length = 0 then ⟨.invalid, 0, cards⟩
  else
    let sorted := sortByValue cards
    if cards.length = 2 ∧ (nthCard sorted 0).suit = "joker" ∧ (nthCard sorted 1).suit = "joker"
        ∧ (nthCard sorted 0).rank ≠ (nthCard sorted 1).rank then
      ⟨.rocket, 100, cards⟩
    else if cards.length = 4 ∧ sorted.all (fun c => decide (c.rank = (nthCard sorted 0).rank)) then
      ⟨.bomb, (nthCard sorted 0).value + 50, cards⟩
    else if cards.length = 6 ∧ (ranksDedup sorted).length = 3
        ∧ (rankCountsList sorted).contains 4 ∧ (rankCountsList sorted).count 1 = 2 then
      ⟨.fourSingle, fourOfAKindPower sorted, cards⟩
    else if cards.length = 8 ∧ (ranksDedup sorted).length = 3
        ∧ (rankCountsList sorted).contains 4 ∧ (rankCountsList sorted).count 2 = 2 then
      ⟨.fourPair, fourOfAKindPower sorted, cards⟩
    else if cards.length = 1 then ⟨.single, (nthCard sorted 0).value, cards⟩
    else if cards.length = 2 ∧ (nthCard sorted 0).rank = (nthCard sorted 1).rank then
      ⟨.pair, (nthCard sorted 0).value, cards⟩
    else if cards.length = 3 ∧ (nthCard sorted 0).rank = (nthCard sorted 1).rank
        ∧ (nthCard sorted 1).rank = (nthCard sorted 2).rank then
      ⟨.triple, (nthCard sorted 0).value, cards⟩
    else if cards.length = 4 ∧ (ranksDedup sorted).length = 2
        ∧ (rankCountsList sorted).contains 3 ∧ (rankCountsList sorted).contains 1 then
      ⟨.tripleSingle, tripleOfAKindPower sorted, cards⟩
    else if cards.length = 5 ∧ (ranksDedup sorted).length = 2
        ∧ (rankCountsList sorted).contains 3 ∧ (rankCountsList sorted).contains 2 then
      ⟨.triplePair, tripleOfAKindPower sorted, cards⟩
    else straightCheck cards sorted

/-- Modelled from the spec: the card definitions consumed from the
dealing collaborator (the data JSON is not under src).  Rank strings are
in bijection with numeric values; value totally orders ranks
3 < 4 < … < A < "2" < small joker < big joker (spec section 3). -/
def rankOfValue : Nat → String
  | 3 => "3"
  | 4 => "4"
  | 5 => "5"
  | 6 => "6"
  | 7 => "7"
  | 8 => "8"
  | 9 => "9"
  | 10 => "10"
  | 11 => "J"
  | 12 => "Q"
  | 13 => "K"
  | 14 => "A"
  | 15 => "2"
  | 16 => "BlackJoker"
  | 17 => "RedJoker"
  | _ => ""

/-- Deck well-formedness of one card: value in the 3..17 range, rank the
canonical rank string of the value, suit `"joker"` exactly for the two
jokers (values 16 and 17).  A malformed hand is a precondition violation
of the owning collaborator (spec section 7). -/
def WFCard (c : Card) : Prop :=
  3 ≤ c.value ∧ c.value ≤ 17 ∧ c.rank = rankOfValue c.value ∧ (c.suit = "joker" ↔ 16 ≤ c.value)

instance (c : Card) : Decidable (WFCard c) := by unfold WFCard; infer_instance

/-- Convenience constructor for concrete well-formed cards. -/
def mkCard (id : Nat) (suit : String) (v : Nat) : Card := ⟨id, suit, rankOfValue v, v, false⟩

example : (analyzePlayData
    [mkCard 1 "spades" 3, mkCard 2 "spades" 4, mkCard 3 "hearts" 5,
     mkCard 4 "diamonds" 6, mkCard 5 "clubs" 7]).type = .straight := by decide

example : (analyzePlayData
    [mkCard 1 "spades" 3, mkCard 2 "spades" 4, mkCard 3 "hearts" 5,
     mkCard 4 "diamonds" 6, mkCard 5 "clubs" 7]).power = 7 := by decide

example : (analyzePlayData
    [mkCard 1 "spades" 15, mkCard 2 "spades" 3, mkCard 3 "hearts" 4,
     mkCard 4 "diamonds" 5, mkCard 5 "clubs" 6]).type = .invalid := by decide

example : (analyzePlayData
    [mkCard 1 "spades" 3, mkCard 2 "hearts" 3, mkCard 3 "diamonds" 3,
     mkCard 4 "spades" 4, mkCard 5 "hearts" 4]).type = .triplePair := by decide

example : (analyzePlayData
    [mkCard 1 "spades" 3, mkCard 2 "hearts" 3, mkCard 3 "diamonds" 3,
     mkCard 4 "spades" 4, mkCard 5 "hearts" 4, mkCard 6 "diamonds" 4,
     mkCard 7 "spades" 15, mkCard 8 "joker" 16]).type = .planeSingle := by decide

/-- Result of `PlayValidationSystem.validatePlay`. -/
structure ValidationResult where
  valid : Bool
  reason : String
deriving DecidableEq

/-- Embedding of `PlayValidationSystem.validatePlay(play, lastPlay, isLastPlayer)`. -/
def validatePlay (play : PlayInfo) (lastPlay : Option PlayInfo) (isLastPlayer : Bool) :
    ValidationResult :=
  if play.type = .invalid then ⟨false, "Invalid card combination"⟩
  else
    match lastPlay with
    | none => ⟨true, ""⟩
    | some lp =>
      if isLastPlayer then ⟨true, ""⟩
      else if play.type = .rocket then ⟨true, ""⟩
      else if play.type = .bomb then
        if lp.type = .rocket then ⟨false, "Rocket beats bomb"⟩
        else if lp.type = .bomb ∧ play.power ≤ lp.power then ⟨false, "Need a higher bomb"⟩
        else ⟨true, ""⟩
      else if play.type ≠ lp.type then
        ⟨false, "Must play the same combination type (" ++ lp.type.str ++ ")"⟩
      else if (play.type = .straight ∨ play.type = .straightPair)
          ∧ play.cards.length ≠ lp.cards.length then
        ⟨false, "Straight length must match the previous play"⟩
      else if play.power ≤ lp.power then ⟨false, "Must play higher value cards"⟩
      else ⟨true, ""⟩

/-- Structure `CardCombination` of `CardCombinationAnalyzer.ts` (entities are the
card entity ids). -/
structure CardCombination where
  cards : List Card
  type : CombinationType
  power : Nat
  strength : Nat
  isValid : Bool
  description : String
  entities : List Nat
deriving DecidableEq

/-- Embedding of `CardCombinationAnalyzer.canBeat(a, b)`.  `a.power ?? a.strength`
reads `a.power`, which is always set on constructed combinations. -/
def canBeat (a b : CardCombination) : Bool :=
  if a.type = .rocket then true
  else if b.type = .rocket then false
  else if a.type = .bomb ∧ b.type ≠ .bomb then true
  else if a.type ≠ .bomb ∧ b.type = .bomb then false
  else if a.type = b.type then decide (b.power < a.power)
  else false

/-- Constant `CombinationStrength.WEAK`. -/
def strengthWeak : Nat := 1

/-- Constant `CombinationStrength.MODERATE`. -/
def strengthModerate : Nat := 2

/-- Constant `CombinationStrength.STRONG`. -/
def strengthStrong : Nat := 3

/-- Constant `CombinationStrength.ULTRA`. -/
def strengthUltra : Nat := 4

/-- Embedding of `StrategicPlayManager.evaluateCombinationStrength`. -/
def evaluateCombinationStrength (combo : CardCombination) : Nat :=
  if combo.type = .bomb ∨ combo.type = .rocket then strengthUltra
  else if combo.type = .plane ∨ combo.type = .planeSingle ∨ combo.type = .planePair
      ∨ combo.type = .fourSingle ∨ combo.type = .fourPair then strengthStrong
  else if combo.type = .straightPair
      ∨ (combo.type = .straight ∧ 7 ≤ combo.cards.length) then strengthModerate
  else if combo.type = .triplePair ∨ combo.type = .tripleSingle then
    if 14 ≤ combo.power then strengthStrong
    else if 11 ≤ combo.power then strengthModerate
    else strengthWeak
  else if combo.type = .pair then
    if 14 ≤ combo.power then strengthStrong
    else if 12 ≤ combo.power then strengthModerate
    else strengthWeak
  else if combo.type = .single then
    if 15 ≤ combo.power then strengthUltra
    else if 14 ≤ combo.power then strengthStrong
    else if 12 ≤ combo.power then strengthModerate
    else strengthWeak
  else strengthWeak

/-- Embedding of `StrategicPlayManager.calculatePriority`. -/
def calculatePriority (combo : CardCombination) (remainingCards : Nat) (isOffensive : Bool) :
    Int :=
  let p1 : Int :=
    if remainingCards ≤ 5 then (combo.cards.length : Int) * 10
    else if remainingCards ≤ 10 then (combo.cards.length : Int) * 5
    else if combo.type = .single ∧ combo.power < 8 then 15
    else 0
  let strength := evaluateCombinationStrength combo
  let p2 : Int :=
    if strength = strengthWeak then 20
    else if strength = strengthModerate then (if isOffensive then 10 else 5)
    else if strength = strengthStrong then (if isOffensive then 5 else -10)
    else if strength = strengthUltra then (if isOffensive then 0 else -20)
    else 0
  let p3 : Int :=
    if combo.type = .straight ∧ 5 ≤ combo.cards.length then
      min ((combo.cards.length : Int) - 4) 5
    else 0
  p1 + p2 + p3

/-- Embedding of `StrategicPlayManager.analyzePreservedCombinations`.  The source
computes `new Set(playedCombination.cards.map(c => c.entity))` and keeps
`combo` when `!combo.cards.some(c => playedCardIds.has(c.entity))`; but
`CardData` has no `entity` field, so every `c.entity` evaluates to the
JavaScript `undefined` (embedded as `none`).  The id set is `{undefined}`
whenever the played combination is nonempty, so every nonempty
combination tests as overlapping. -/
def analyzePreservedCombinations (allCombinations : List CardCombination)
    (playedCombination : CardCombination) : List CardCombination :=
  let playedCardIds : List (Option Nat) :=
    (playedCombination.cards.map (fun _ => (none : Option Nat))).dedup
  let preserved := allCombinations.filter
    (fun combo => !(combo.cards.any (fun _ => playedCardIds.contains (none : Option Nat))))
  preserved.filter (fun combo => strengthModerate ≤ evaluateCombinationStrength combo)

/-- The claim's reading of preserved combinations: the potential-set
entries sharing no card with the chosen play (by card identity),
filtered to Moderate or higher strength. -/
def preservedCombinationsClaim (allCombinations : List CardCombination)
    (playedCombination : CardCombination) : List CardCombination :=
  (allCombinations.filter (fun combo =>
    !(combo.cards.any (fun c =>
      playedCombination.cards.any (fun d => d.id == c.id))))).filter
    (fun combo => strengthModerate ≤ evaluateCombinationStrength combo)

/-- Embedding of `StrategicPlayManager.generateRecommendationReason`. -/
def generateRecommendationReason (combination : CardCombination) (strength : Nat)
    (remainingCards : Nat) (preservedCombinations : List CardCombination) : String :=
  let reason := "Recommend playing " ++ combination.description
  let reason := reason ++
    (if strength = strengthWeak then " (clear weak cards)"
     else if strength = strengthModerate then " (moderate value cards)"
     else if strength = strengthStrong then " (strong cards, use carefully)"
     else if strength = strengthUltra then " (critical cards, consider keeping)"
     else "")
  let reason := reason ++
    (if remainingCards ≤ 5 then ", end game quickly"
     else if remainingCards ≤ 10 then ", maintain rhythm"
     else ", clean up hand")
  if 0 < preservedCombinations.length then
    reason ++ ", preserving " ++
      String.intercalate ", " ((preservedCombinations.map (fun c => c.type.str)).take 2)
  else reason

/-- One entry of the `combinationAnalysis` array the recommender sorts. -/
structure StrategyEntry where
  combination : CardCombination
  strength : Nat
  priority : Int
deriving DecidableEq

/-- The sort comparator of `generateStrategicRecommendation`: higher
priority first, then lower strength, then lower power. -/
def strategyLE (a b : StrategyEntry) : Prop :=
  b.priority < a.priority
    ∨ (a.priority = b.priority
        ∧ (a.strength < b.strength
            ∨ (a.strength = b.strength ∧ a.combination.power ≤ b.combination.power)))

instance : DecidableRel strategyLE := fun a b => by unfold strategyLE; infer_instance

instance : IsTotal StrategyEntry strategyLE := ⟨by
  intro a b
  unfold strategyLE
  omega⟩

instance : IsTrans StrategyEntry strategyLE := ⟨by
  intro a b c hab hbc
  unfold strategyLE at *
  omega⟩

/-- Structure `StrategicPlayManager.StrategicRecommendation`. -/
structure StrategicRecommendation where
  combination : CardCombination
  strength : Nat
  priority : Int
  reason : String
  preservedCombinations : List CardCombination
deriving DecidableEq

/-- Embedding of `StrategicPlayManager.generateStrategicRecommendation`.  The source
sorts `combinationAnalysis` with the comparator above (a stable sort
under ES2019 semantics, embedded by the stable `insertionSort`) and
takes element 0; the inner `[] => none` case is unreachable for a
nonempty candidate list. -/
def generateStrategicRecommendation (allCombinations playableCombinations : List CardCombination)
    (remainingCards : Nat) (isOffensive : Bool) : Option StrategicRecommendation :=
  if playableCombinations.length = 0 then none
  else
    let combinationAnalysis := playableCombinations.map (fun combo =>
      { combination := combo
        strength := evaluateCombinationStrength combo
        priority := calculatePriority combo remainingCards isOffensive : StrategyEntry })
    match combinationAnalysis.insertionSort strategyLE with
    | [] => none
    | bestChoice :: _ =>
      let preservedCombinations :=
        analyzePreservedCombinations allCombinations bestChoice.combination
      some
        { combination := bestChoice.combination
          strength := bestChoice.strength
          priority := bestChoice.priority
          reason := generateRecommendationReason bestChoice.combination bestChoice.strength
            remainingCards preservedCombinations
          preservedCombinations := preservedCombinations }

/-- Enum `GamePhase` of `components/index.ts`. -/
inductive GamePhase where
  | dealing
  | bidding
  | playing
  | finished
deriving DecidableEq

/-- Enum `Winner` of `components/index.ts`. -/
inductive Winner where
  | noWinner
  | landlord
  | farmers
deriving DecidableEq

/-- Enum `Role` of `components/index.ts`. -/
inductive Role where
  | farmer
  | landlord
deriving DecidableEq

/-- The round/bidding state fields of `GameState` in
`components/index.ts` (entities are numbers; `landlordCards` holds the
three bonus-card entities). -/
structure GameSt where
  phase : GamePhase
  currentPlayerId : Nat
  lastPlay : Option (List Nat)
  lastPlayOwnerId : Option Nat
  landlordCards : List Nat
  winner : Winner
  passCount : Nat
  bidHistory : List (Nat × Int)
  currentBid : Int
  landlordId : Option Nat
deriving DecidableEq

/-- The world slice the validated systems read and write: the game
state, the three players' hands (index = player id 0, 1, 2), their
roles, and the entity-to-`CardData` component table.  Sprites,
transforms, selection state and the face-up flags are presentation
concerns not modelled here. -/
structure WorldSt where
  game : GameSt
  hands : List (List Nat)
  roles : List Role
  cardTable : List (Nat × Card)
deriving DecidableEq

/-- Lookup `world.components.get(entity, CardData)` (absent components read as
`undefined`, embedded as `none`). -/
def WorldSt.cardOf (w : WorldSt) (e : Nat) : Option Card :=
  (w.cardTable.find? (fun p => p.1 == e)).map (·.2)

/-- Embedding of `analyzePlay` on entity ids: look every entity's `CardData` up, and
return Invalid when any is missing (`cardDataList.some(data => !data)`). -/
def analyzePlayEnt (w : WorldSt) (cards : List Nat) : PlayInfo :=
  match cards.mapM w.cardOf with
  | none => ⟨.invalid, 0, []⟩
  | some ds => analyzePlayData ds

/-- The game events the embedded handlers emit on the event bus.
`console.warn`/`console.log` output is not an event. -/
inductive GEvent where
  | invalidPlay (playerId : Nat) (reason : String)
  | clearCardSelection (playerId : Nat)
  | playCardsValidated (playerId : Nat) (cards : List Nat) (combinationType : CombinationType)
  | gameStateChanged
  | gameReset
deriving DecidableEq

/-- Embedding of `PlayValidationSystem.handlePlay`.  The first guard (missing game
state, wrong phase, unknown player entity, or a non-current player) only
logs a warning and returns: no event reaches the initiator.  Face-up
flags, `Hand` component tags and selection state of the played cards are
presentation bookkeeping outside this model. -/
def handlePlay (w : WorldSt) (playerId : Nat) (cards : List Nat) : WorldSt × List GEvent :=
  if ¬(w.game.phase = .playing ∧ playerId < 3 ∧ playerId = w.game.currentPlayerId) then
    (w, [])
  else
    let hand := w.hands.getD playerId []
    if ¬(cards.all (fun c => hand.contains c)) then
      (w, [.invalidPlay playerId "You do not have all these cards in your hand"])
    else
      let playInfo := analyzePlayEnt w cards
      let lastPlayInfo := w.game.lastPlay.map (fun lp => analyzePlayEnt w lp)
      let validationResult :=
        validatePlay playInfo lastPlayInfo (w.game.lastPlayOwnerId == some playerId)
      if ¬validationResult.valid then
        (w, (if playerId = 0 then [GEvent.clearCardSelection playerId] else [])
            ++ [.invalidPlay playerId validationResult.reason])
      else
        let newHand := hand.filter (fun c => ¬cards.contains c)
        let g := w.game
        ({ w with
            hands := w.hands.set playerId newHand
            game := { g with
              lastPlay := some cards
              lastPlayOwnerId := some playerId
              passCount := 0
              currentPlayerId := (g.currentPlayerId + 1) % 3 } },
          [.clearCardSelection playerId,
           .playCardsValidated playerId cards playInfo.type,
           .gameStateChanged])

/-- Embedding of `PlayValidationSystem.handlePass`.  The first guard only logs; the
table-clearing of played card entities on a round end is presentation
bookkeeping outside this model. -/
def handlePass (w : WorldSt) (playerId : Nat) : WorldSt × List GEvent :=
  if ¬(w.game.phase = .playing ∧ playerId = w.game.currentPlayerId) then (w, [])
  else if w.game.lastPlay = none ∨ w.game.lastPlayOwnerId = some playerId then
    (w, [.invalidPlay playerId
          "You cannot pass when you are the first player or won the last round"])
  else
    let g := w.game
    let newPassCount := g.passCount + 1
    let afterCurrent := (g.currentPlayerId + 1) % 3
    if 2 ≤ newPassCount ∧ some afterCurrent = g.lastPlayOwnerId then
      ({ w with game := { g with
          currentPlayerId := afterCurrent
          lastPlay := none
          lastPlayOwnerId := none
          passCount := 0 } },
        [.gameStateChanged])
    else
      ({ w with game := { g with currentPlayerId := afterCurrent, passCount := newPassCount } },
        [.gameStateChanged])

/-- Embedding of `BiddingSystem.endBidding`.  With a landlord decided it assigns the
landlord role and reveals the bonus cards (one `GameStateChanged` from
`revealLandlordCards`, one from `endBidding` itself); the hand
integration and the transition to the playing phase run later through a
`setTimeout` callback, after the handler has returned.  With no positive
bid it requests a re-deal via `GameReset`. -/
def endBidding (w : WorldSt) : WorldSt × List GEvent :=
  if w.game.bidHistory.any (fun b => 0 < b.2) ∧ w.game.landlordId ≠ none then
    match w.game.landlordId with
    | none => (w, [])
    | some lid =>
      if 3 ≤ lid then (w, [])
      else ({ w with roles := w.roles.set lid .landlord }, [.gameStateChanged, .gameStateChanged])
  else (w, [.gameReset])

/-- Embedding of `BiddingSystem.handleBidRequest`.  Every rejection path only logs a
`console.warn` and returns without emitting anything. -/
def handleBidRequest (w : WorldSt) (playerId : Nat) (amount : Int) : WorldSt × List GEvent :=
  if ¬(w.game.phase = .bidding ∧ playerId = w.game.currentPlayerId) then (w, [])
  else if amount < 0 ∨ 3 < amount then (w, [])
  else if w.game.bidHistory.any (fun b => b.1 == playerId) then (w, [])
  else if 0 < amount ∧ amount ≤ w.game.currentBid then (w, [])
  else
    let g := w.game
    let g1 :=
      if g.currentBid < amount then { g with currentBid := amount, landlordId := some playerId }
      else g
    let g2 := { g1 with bidHistory := g1.bidHistory ++ [(playerId, amount)] }
    if amount = 3 ∨ g2.bidHistory.length = 3 then
      let r := endBidding { w with game := g2 }
      (r.1, r.2 ++ [.gameStateChanged])
    else
      ({ w with game := { g2 with currentPlayerId := (g2.currentPlayerId + 1) % 3 } },
        [.gameStateChanged])

/-- Embedding of `WinConditionSystem.update`: outside the playing phase it does
nothing; otherwise the first player (entity creation order 0, 1, 2)
whose hand is empty decides the winner and finishes the game. -/
def winConditionUpdate (w : WorldSt) : WorldSt × List GEvent :=
  if w.game.phase ≠ .playing then (w, [])
  else
    match [0, 1, 2].find? (fun p => (w.hands.getD p []).isEmpty) with
    | none => (w, [])
    | some p =>
      let newWinner :=
        if w.roles.getD p .farmer = .landlord then Winner.landlord else Winner.farmers
      ({ w with game := { w.game with winner := newWinner, phase := .finished } },
        [.gameStateChanged])

/-! ### Concrete combinations used by witnesses and counterexamples -/

/-- A five-card straight 8..Q as `CardCombinationAnalyzer` would build it
(its straight power is the lowest value). -/
def cbStraight5 : CardCombination :=
  { cards := [mkCard 21 "spades" 8, mkCard 22 "hearts" 9, mkCard 23 "clubs" 10,
              mkCard 24 "diamonds" 11, mkCard 25 "spades" 12]
    type := .straight, power := 8, strength := 8, isValid := true
    description := "5-card straight", entities := [21, 22, 23, 24, 25] }

/-- A six-card straight 3..8. -/
def cbStraight6 : CardCombination :=
  { cards := [mkCard 11 "spades" 3, mkCard 12 "hearts" 4, mkCard 13 "clubs" 5,
              mkCard 14 "diamonds" 6, mkCard 15 "spades" 7, mkCard 16 "hearts" 8]
    type := .straight, power := 3, strength := 3, isValid := true
    description := "6-card straight", entities := [11, 12, 13, 14, 15, 16] }

/-- The rocket as `CardCombinationAnalyzer.analyzeCombination` builds it. -/
def cbRocket : CardCombination :=
  { cards := [mkCard 53 "joker" 16, mkCard 54 "joker" 17]
    type := .rocket, power := 1000, strength := 1000, isValid := true
    description := "Rocket (Joker pair)", entities := [53, 54] }

/-- A bomb of aces (`power = 100 + value`). -/
def cbBombAces : CardCombination :=
  { cards := [mkCard 39 "spades" 14, mkCard 40 "hearts" 14, mkCard 41 "clubs" 14,
              mkCard 42 "diamonds" 14]
    type := .bomb, power := 114, strength := 114, isValid := true
    description := "Bomb (A)", entities := [39, 40, 41, 42] }

/-- A single 3. -/
def cbSingleThree : CardCombination :=
  { cards := [mkCard 1 "spades" 3]
    type := .single, power := 3, strength := 3, isValid := true
    description := "Single 3", entities := [1] }

/-- A pair of 7s. -/
def cbPair7 : CardCombination :=
  { cards := [mkCard 17 "spades" 7, mkCard 18 "hearts" 7]
    type := .pair, power := 7, strength := 7, isValid := true
    description := "Pair of 7", entities := [17, 18] }

/-- A pair of 5s. -/
def cbPair5 : CardCombination :=
  { cards := [mkCard 9 "spades" 5, mkCard 10 "hearts" 5]
    type := .pair, power := 5, strength := 5, isValid := true
    description := "Pair of 5", entities := [9, 10] }

/-! ### C3 -/

/-- C3 counterexample: `canBeat` compares two same-type variable-length
combinations by power alone.  An 8-high five-card straight beats a
3-high six-card straight although the lengths differ, so
`canBeat(A,B) ⟺ len(A)=len(B) ∧ power(A)>power(B)` fails. -/
theorem C3_counterexample :
    ¬((canBeat cbStraight5 cbStraight6 = true) ↔
      (cbStraight5.cards.length = cbStraight6.cards.length
        ∧ cbStraight6.power < cbStraight5.power)) := by
  decide

/-- C3 (amended): for same-type combinations that are neither bombs nor
rockets, `CardCombinationAnalyzer.canBeat` holds iff the candidate's
power is strictly greater — no length condition.  The length requirement
lives only in `PlayValidationSystem.validatePlay` and only for Straight
and StraightOfPairs: same-type straights of different lengths are
rejected there, while same-type planes of different lengths are accepted
whenever the power is higher. -/
theorem C3_same_type_power_only :
    (∀ a b : CardCombination, a.type = b.type → a.type ≠ .bomb → a.type ≠ .rocket →
      (canBeat a b = true ↔ b.power < a.power))
    ∧ (∀ play lp : PlayInfo, play.type = lp.type →
        (play.type = .straight ∨ play.type = .straightPair) →
        play.cards.length ≠ lp.cards.length →
        (validatePlay play (some lp) false).valid = false)
    ∧ (∀ play lp : PlayInfo, play.type = lp.type →
        (play.type = .plane ∨ play.type = .planeSingle ∨ play.type = .planePair) →
        lp.power < play.power →
        (validatePlay play (some lp) false).valid = true) := by
  refine ⟨?_, ?_, ?_⟩
  · intro a b hab ha hr
    have hb : b.type ≠ CombinationType.rocket := by rw [← hab]; exact hr
    have hbb : ¬(a.type = .bomb ∧ b.type ≠ .bomb) := by
      intro h; exact ha h.1
    have hbb2 : ¬(a.type ≠ .bomb ∧ b.type = .bomb) := by
      intro h; exact ha (hab.trans h.2)
    simp [canBeat, hr, hb, hbb, hbb2, hab]
  · intro play lp hty hvar hlen
    have hinv : play.type ≠ .invalid := by
      rcases hvar with h | h <;> simp [h]
    have hlpi : lp.type ≠ .invalid := by rw [← hty]; exact hinv
    have hlpr : lp.type ≠ .rocket := by
      rw [← hty]; rcases hvar with h | h <;> simp [h]
    have hlpb : lp.type ≠ .bomb := by
      rw [← hty]; rcases hvar with h | h <;> simp [h]
    have hlpv : lp.type = .straight ∨ lp.type = .straightPair := by
      rw [← hty]; exact hvar
    simp [validatePlay, hinv, hty, hlpi, hlpr, hlpb, hlpv, hlen]
  · intro play lp hty hpl hpow
    have hinv : play.type ≠ .invalid := by
      rcases hpl with h | h | h <;> simp [h]
    have hlpi : lp.type ≠ .invalid := by rw [← hty]; exact hinv
    have hlpr : lp.type ≠ .rocket := by
      rw [← hty]; rcases hpl with h | h | h <;> simp [h]
    have hlpb : lp.type ≠ .bomb := by
      rw [← hty]; rcases hpl with h | h | h <;> simp [h]
    have hlps : lp.type ≠ .straight := by
      rw [← hty]; rcases hpl with h | h | h <;> simp [h]
    have hlpsp : lp.type ≠ .straightPair := by
      rw [← hty]; rcases hpl with h | h | h <;> simp [h]
    have hle : ¬(play.power ≤ lp.power) := by omega
    simp [validatePlay, hinv, hty, hlpi, hlpr, hlpb, hlps, hlpsp, hle]

/-- C3 witness: the amended rule at a concrete input — a pair of 7s
beats a pair of 5s. -/
theorem C3_witness : canBeat cbPair7 cbPair5 = true :=
  (C3_same_type_power_only.1 cbPair7 cbPair5 rfl (by decide) (by decide)).mpr (by decide)

/-! ### C4 -/

/-- C4 counterexample: the Rocket-first check in `canBeat` fires before
the reference is inspected, so a rocket beats a rocket, contradicting
"nothing beats a Rocket, including another Rocket". -/
theorem C4_counterexample : canBeat cbRocket cbRocket = true := by decide

/-- C4 (amended): a rocket beats every combination (Invalid included),
and nothing except another rocket beats a rocket. -/
theorem C4_rocket_dominance (r x : CardCombination) (hr : r.type = .rocket) :
    canBeat r x = true ∧ (x.type ≠ .rocket → canBeat x r = false) := by
  constructor
  · simp [canBeat, hr]
  · intro hx
    simp [canBeat, hx, hr]

/-- C4 witness: the rocket beats a bomb of aces and the bomb does not
beat the rocket. -/
theorem C4_witness : canBeat cbRocket cbBombAces = true ∧ canBeat cbBombAces cbRocket = false :=
  ⟨(C4_rocket_dominance cbRocket cbBombAces rfl).1,
   (C4_rocket_dominance cbRocket cbBombAces rfl).2 (by decide)⟩

/-! ### C9 -/

/-- C9: `analyzePreservedCombinations` reads `c.entity` from `CardData`,
which has no such field, so the played-card id set is `{undefined}` and
every nonempty potential-set entry is discarded: the result is `[]` even
for an Ultra-strength bomb fully disjoint from the played single,
where the claimed behaviour keeps the bomb. -/
theorem C9_preserved_always_empty :
    analyzePreservedCombinations [cbBombAces] cbSingleThree = []
      ∧ preservedCombinationsClaim [cbBombAces] cbSingleThree = [cbBombAces] := by
  decide

/-! ### Concrete worlds used by witnesses and counterexamples -/

/-- A small card table: entities 101..106 with simple well-formed cards. -/
def sampleTable : List (Nat × Card) :=
  [(101, mkCard 1 "spades" 3), (102, mkCard 2 "hearts" 4), (103, mkCard 3 "clubs" 5),
   (104, mkCard 4 "diamonds" 6), (105, mkCard 5 "spades" 7), (106, mkCard 6 "hearts" 7)]

/-- A playing-phase world: player 0 (landlord) to move, empty table. -/
def wPlay : WorldSt :=
  { game := { phase := .playing, currentPlayerId := 0, lastPlay := none,
              lastPlayOwnerId := none, landlordCards := [], winner := .noWinner,
              passCount := 0, bidHistory := [], currentBid := 0, landlordId := some 0 }
    hands := [[101, 102], [103, 104], [105, 106]]
    roles := [.landlord, .farmer, .farmer]
    cardTable := sampleTable }

/-- A playing-phase world mid-trick: player 0 played the single 101,
player 1 passed, player 2 to move. -/
def wPass : WorldSt :=
  { game := { phase := .playing, currentPlayerId := 2, lastPlay := some [101],
              lastPlayOwnerId := some 0, landlordCards := [], winner := .noWinner,
              passCount := 1, bidHistory := [], currentBid := 0, landlordId := some 0 }
    hands := [[102], [103, 104], [105, 106]]
    roles := [.landlord, .farmer, .farmer]
    cardTable := sampleTable }

/-- A bidding-phase world: player 0 to bid, no bids yet. -/
def wBid : WorldSt :=
  { game := { phase := .bidding, currentPlayerId := 0, lastPlay := none,
              lastPlayOwnerId := none, landlordCards := [], winner := .noWinner,
              passCount := 0, bidHistory := [], currentBid := 0, landlordId := none }
    hands := [[101, 102], [103, 104], [105, 106]]
    roles := [.farmer, .farmer, .farmer]
    cardTable := sampleTable }

/-- A playing-phase world in which player 1 (a farmer) has emptied
their hand. -/
def wEmptyHand : WorldSt :=
  { game := { phase := .playing, currentPlayerId := 2, lastPlay := some [103],
              lastPlayOwnerId := some 1, landlordCards := [], winner := .noWinner,
              passCount := 0, bidHistory := [], currentBid := 0, landlordId := some 0 }
    hands := [[102], [], [105, 106]]
    roles := [.landlord, .farmer, .farmer]
    cardTable := sampleTable }

/-- A finished-phase world. -/
def wFinished : WorldSt :=
  { game := { phase := .finished, currentPlayerId := 2, lastPlay := some [103],
              lastPlayOwnerId := some 1, landlordCards := [], winner := .farmers,
              passCount := 0, bidHistory := [], currentBid := 0, landlordId := some 0 }
    hands := [[102], [], [105, 106]]
    roles := [.landlord, .farmer, .farmer]
    cardTable := sampleTable }

/-! ### C6 -/

/-- C6: in the playing phase (i) an accepted pass clears the trick
(`lastPlay = null`, `lastPlayOwnerId = null`, `passCount = 0`) exactly
when the incremented pass count reaches 2 (= numPlayers − 1) and the
turn has cycled back to the last play's owner, and otherwise only
increments the pass count and advances the turn; (ii) every accepted
play resets `passCount` to 0; (iii) with no `lastPlay` on the table any
non-Invalid combination passes `validatePlay`, so the leader is
unconstrained by a beat check. -/
theorem C6_round_clear
    (w : WorldSt) (p : Nat)
    (hphase : w.game.phase = .playing) (hcur : p = w.game.currentPlayerId)
    (hlp : w.game.lastPlay ≠ none) (howner : w.game.lastPlayOwnerId ≠ some p) :
    (((2 ≤ w.game.passCount + 1
        ∧ some ((w.game.currentPlayerId + 1) % 3) = w.game.lastPlayOwnerId) →
      ((handlePass w p).1.game.lastPlay = none
        ∧ (handlePass w p).1.game.lastPlayOwnerId = none
        ∧ (handlePass w p).1.game.passCount = 0))
    ∧ ((¬(2 ≤ w.game.passCount + 1
        ∧ some ((w.game.currentPlayerId + 1) % 3) = w.game.lastPlayOwnerId)) →
      ((handlePass w p).1.game.lastPlay = w.game.lastPlay
        ∧ (handlePass w p).1.game.lastPlayOwnerId = w.game.lastPlayOwnerId
        ∧ (handlePass w p).1.game.passCount = w.game.passCount + 1)))
    ∧ (∀ (w' : WorldSt) (q : Nat) (cs : List Nat),
        (handlePlay w' q cs).1.game.passCount = 0 ∨ (handlePlay w' q cs).1 = w')
    ∧ (∀ (pi : PlayInfo) (b : Bool), pi.type ≠ .invalid →
        (validatePlay pi none b).valid = true) := by
  refine ⟨⟨?_, ?_⟩, ?_, ?_⟩
  · intro hcond
    subst hcur
    have hno : ¬(w.game.lastPlay = none
        ∨ w.game.lastPlayOwnerId = some w.game.currentPlayerId) := by
      simp [hlp, howner]
    simp [handlePass, hphase, hno, hcond]
  · intro hcond
    subst hcur
    have hno : ¬(w.game.lastPlay = none
        ∨ w.game.lastPlayOwnerId = some w.game.currentPlayerId) := by
      simp [hlp, howner]
    have hcond' : ¬(1 ≤ w.game.passCount
        ∧ some ((w.game.currentPlayerId + 1) % 3) = w.game.lastPlayOwnerId) := by
      intro h
      exact hcond ⟨by omega, h.2⟩
    simp [handlePass, hphase, hno, hcond']
  · intro w' q cs
    unfold handlePlay
    dsimp only
    split
    · exact Or.inr rfl
    · split
      · exact Or.inr rfl
      · split
        · exact Or.inr rfl
        · exact Or.inl rfl
  · intro pi b hpi
    simp [validatePlay, hpi]

/-- C6 witness: in `wPass` the second pass returns the turn to player 0,
the owner of the last play, and the trick clears. -/
theorem C6_witness :
    (handlePass wPass 2).1.game.lastPlay = none
      ∧ (handlePass wPass 2).1.game.lastPlayOwnerId = none
      ∧ (handlePass wPass 2).1.game.passCount = 0 :=
  (C6_round_clear wPass 2 (by decide) (by decide) (by decide) (by decide)).1.1 (by decide)

/-! ### C7 -/

/-- C7 counterexample: an over-maximum bid (amount 5) from the current
player in the bidding phase is rejected, leaves the world unchanged —
and emits no event at all: the initiator receives no rejection reason,
contradicting "reported to the initiator as a rejection with a
reason". -/
theorem C7_counterexample : handleBidRequest wBid 0 5 = (wBid, []) := by decide

/-- C7 (amended): every rejected bid, play or pass request (one that
emits no `GameStateChanged`, the event every accept path broadcasts)
leaves the entire world — round state and all hands — unchanged; play
and pass rejections either emit an `InvalidPlay` event carrying a reason
or (for wrong-phase/not-your-turn guards) nothing, and every bid
rejection is silent. -/
theorem C7_rejection_no_mutation :
    (∀ (w : WorldSt) (p : Nat) (a : Int),
      GEvent.gameStateChanged ∉ (handleBidRequest w p a).2 →
      (handleBidRequest w p a).1 = w ∧ (handleBidRequest w p a).2 = [])
    ∧ (∀ (w : WorldSt) (p : Nat) (cs : List Nat),
      GEvent.gameStateChanged ∉ (handlePlay w p cs).2 →
      (handlePlay w p cs).1 = w
        ∧ ((handlePlay w p cs).2 = []
            ∨ ∃ r, GEvent.invalidPlay p r ∈ (handlePlay w p cs).2))
    ∧ (∀ (w : WorldSt) (p : Nat),
      GEvent.gameStateChanged ∉ (handlePass w p).2 →
      (handlePass w p).1 = w
        ∧ ((handlePass w p).2 = []
            ∨ ∃ r, GEvent.invalidPlay p r ∈ (handlePass w p).2)) := by
  refine ⟨?_, ?_, ?_⟩
  · intro w p a hev
    unfold handleBidRequest at hev ⊢
    split
    next hg => exact ⟨rfl, rfl⟩
    next hg =>
      split
      next h1 => exact ⟨rfl, rfl⟩
      next h1 =>
        split
        next h2 => exact ⟨rfl, rfl⟩
        next h2 =>
          split
          next h3 => exact ⟨rfl, rfl⟩
          next h3 =>
            exfalso
            apply hev
            rw [if_neg hg, if_neg h1, if_neg h2, if_neg h3]
            dsimp only
            split <;> split <;> simp
  · intro w p cs hev
    unfold handlePlay at hev ⊢
    dsimp only at hev ⊢
    split
    next hg => exact ⟨rfl, Or.inl rfl⟩
    next hg =>
      split
      next hh => exact ⟨rfl, Or.inr ⟨_, List.mem_singleton_self _⟩⟩
      next hh =>
        split
        next hv =>
          exact ⟨rfl, Or.inr ⟨_, List.mem_append_right _ (List.mem_singleton_self _)⟩⟩
        next hv =>
          exfalso
          apply hev
          rw [if_neg hg, if_neg hh, if_neg hv]
          simp
  · intro w p hev
    unfold handlePass at hev ⊢
    dsimp only at hev ⊢
    split
    next hg => exact ⟨rfl, Or.inl rfl⟩
    next hg =>
      split
      next h2 => exact ⟨rfl, Or.inr ⟨_, List.mem_singleton_self _⟩⟩
      next h2 =>
        exfalso
        apply hev
        rw [if_neg hg, if_neg h2]
        split <;> simp

/-- C7 witness: the amended statement applied to the rejected
over-maximum bid of the counterexample world. -/
theorem C7_witness :
    (handleBidRequest wBid 0 5).1 = wBid ∧ (handleBidRequest wBid 0 5).2 = [] :=
  C7_rejection_no_mutation.1 wBid 0 5 (by decide)

/-! ### C10 -/

/-- C10: in the playing phase, as soon as some player's hand is empty
(the first such player in entity order), `WinConditionSystem` moves the
game to Finished with the winner set to that player's team — landlord if
the emptied hand belongs to the landlord, otherwise the farmers; and in
the finished phase every bid, play and pass request is rejected
unchanged (and, being outside bidding/playing, without any event), so
no further request is ever accepted. -/
theorem C10_win_condition
    (w : WorldSt) (p : Nat) (hph : w.game.phase = .playing) (hp : p < 3)
    (hempty : (w.hands.getD p []).isEmpty = true)
    (hmin : ∀ q, q < p → (w.hands.getD q []).isEmpty = false) :
    ((winConditionUpdate w).1.game.phase = .finished
      ∧ (winConditionUpdate w).1.game.winner =
          (if w.roles.getD p .farmer = .landlord then Winner.landlord else Winner.farmers))
    ∧ (∀ (w' : WorldSt) (q : Nat) (a : Int) (cs : List Nat), w'.game.phase = .finished →
        handleBidRequest w' q a = (w', []) ∧ handlePlay w' q cs = (w', [])
          ∧ handlePass w' q = (w', [])) := by
  constructor
  · simp only [List.getD_eq_getElem?_getD] at hempty hmin
    interval_cases p
    · simp [winConditionUpdate, hph, List.find?, List.getD_eq_getElem?_getD, hempty]
    · have h0 := hmin 0 (by omega)
      simp [winConditionUpdate, hph, List.find?, List.getD_eq_getElem?_getD, hempty, h0]
    · have h0 := hmin 0 (by omega)
      have h1 := hmin 1 (by omega)
      simp [winConditionUpdate, hph, List.find?, List.getD_eq_getElem?_getD, hempty, h0, h1]
  · intro w' q a cs hfin
    refine ⟨?_, ?_, ?_⟩
    · unfold handleBidRequest
      rw [if_pos]
      simp [hfin]
    · unfold handlePlay
      rw [if_pos]
      simp [hfin]
    · unfold handlePass
      rw [if_pos]
      simp [hfin]

/-- C10 witness: player 1, a farmer, has emptied their hand in
`wEmptyHand`; the win check finishes the game for the farmers, and in a
finished world a pass request from the current player is rejected
without effect. -/
theorem C10_witness :
    (winConditionUpdate wEmptyHand).1.game.phase = .finished
      ∧ (winConditionUpdate wEmptyHand).1.game.winner = Winner.farmers
      ∧ handlePass wFinished 2 = (wFinished, []) := by
  have h := C10_win_condition wEmptyHand 1 (by decide) (by decide) (by decide)
    (by intro q hq; interval_cases q; decide)
  refine ⟨h.1.1, ?_, (h.2 wFinished 2 0 [] (by decide)).2.2⟩
  have := h.1.2
  simpa using this

/-! ### C8 -/

theorem strategyLE_refl (a : StrategyEntry) : strategyLE a a :=
  Or.inr ⟨rfl, Or.inr ⟨rfl, le_refl _⟩⟩

/-- The head of the comparator-sorted analysis list is a candidate that
every entry relates to under the comparator order. -/
theorem insertionSort_head_min (l : List StrategyEntry) (b : StrategyEntry)
    (t : List StrategyEntry) (h : l.insertionSort strategyLE = b :: t) :
    b ∈ l ∧ ∀ x ∈ l, strategyLE b x := by
  have hperm := List.perm_insertionSort strategyLE l
  rw [h] at hperm
  have hsorted := List.sorted_insertionSort strategyLE l
  rw [h] at hsorted
  rw [List.sorted_cons] at hsorted
  constructor
  · exact hperm.mem_iff.mp (List.mem_cons_self b t)
  · intro x hx
    have hx' : x ∈ b :: t := hperm.mem_iff.mpr hx
    rcases List.mem_cons.mp hx' with rfl | hx'
    · exact strategyLE_refl x
    · exact hsorted.1 x hx'

/-- C8: the strategic recommender returns `null` exactly when the legal
candidate list is empty; otherwise it returns a legal candidate whose
(priority, strength, power) key is maximal in the comparator order
used for selection: no candidate has strictly higher priority, nor equal
priority with a lower strength tier, nor equal priority and strength
with lower power. -/
theorem C8_recommendation_argmax
    (allC playable : List CardCombination) (rc : Nat) (off : Bool) :
    (generateStrategicRecommendation allC playable rc off = none ↔ playable = [])
    ∧ (∀ rec, generateStrategicRecommendation allC playable rc off = some rec →
        rec.combination ∈ playable
          ∧ rec.strength = evaluateCombinationStrength rec.combination
          ∧ rec.priority = calculatePriority rec.combination rc off
          ∧ ∀ c ∈ playable,
              strategyLE
                ⟨rec.combination, evaluateCombinationStrength rec.combination,
                  calculatePriority rec.combination rc off⟩
                ⟨c, evaluateCombinationStrength c, calculatePriority c rc off⟩) := by
  unfold generateStrategicRecommendation
  by_cases hp : playable.length = 0
  · rw [if_pos hp]
    have hnil : playable = [] := List.length_eq_zero.mp hp
    subst hnil
    exact ⟨by simp, fun rec h => by cases h⟩
  · rw [if_neg hp]
    dsimp only
    rcases hs : (playable.map fun combo =>
        ({ combination := combo, strength := evaluateCombinationStrength combo,
           priority := calculatePriority combo rc off } : StrategyEntry)).insertionSort
        strategyLE with _ | ⟨b, t⟩
    · exfalso
      have := (List.perm_insertionSort strategyLE (playable.map fun combo =>
        ({ combination := combo, strength := evaluateCombinationStrength combo,
           priority := calculatePriority combo rc off } : StrategyEntry))).length_eq
      rw [hs] at this
      simp at this
      exact hp (by simp [this])
    · dsimp only
      have hbmin := insertionSort_head_min _ b t hs
      obtain ⟨c0, hc0, heq⟩ := List.mem_map.mp hbmin.1
      constructor
      · constructor
        · intro habs
          cases habs
        · intro habs
          subst habs
          simp at hp
      · intro rec hrec
        have hrec' := (Option.some.injEq _ _).mp hrec
        subst hrec'
        refine ⟨?_, ?_, ?_, ?_⟩
        · simpa [← heq] using hc0
        · rw [← heq]
        · rw [← heq]
        · intro c hc
          have hx := hbmin.2 _ (List.mem_map_of_mem (fun combo =>
            ({ combination := combo, strength := evaluateCombinationStrength combo,
               priority := calculatePriority combo rc off } : StrategyEntry)) hc)
          rw [← heq] at hx ⊢
          exact hx

/-- C8 witness: with one legal candidate the recommender returns it. -/
theorem C8_witness :
    (generateStrategicRecommendation [] [cbSingleThree] 20 false).elim False
      (fun r => r.combination ∈ [cbSingleThree]) := by
  rcases h : generateStrategicRecommendation [] [cbSingleThree] 20 false with _ | r
  · have := (C8_recommendation_argmax [] [cbSingleThree] 20 false).1.mp h
    cases this
  · exact ((C8_recommendation_argmax [] [cbSingleThree] 20 false).2 r h).1

/-! ### Classifier lemmas -/

theorem rankOfValue_inj :
    ∀ u < 18, ∀ v < 18, 3 ≤ u → 3 ≤ v → rankOfValue u = rankOfValue v → u = v := by
  decide

/-- For well-formed cards the rank string determines the value and
conversely. -/
theorem WFCard.rank_eq_iff {a b : Card} (ha : WFCard a) (hb : WFCard b) :
    a.rank = b.rank ↔ a.value = b.value := by
  obtain ⟨ha3, ha17, har, _⟩ := ha
  obtain ⟨hb3, hb17, hbr, _⟩ := hb
  constructor
  · intro h
    rw [har, hbr] at h
    exact rankOfValue_inj a.value (by omega) b.value (by omega) ha3 hb3 h
  · intro h
    rw [har, hbr, h]

theorem sortByValue_perm (l : List Card) : (sortByValue l).Perm l :=
  List.perm_insertionSort cardValueLE l

theorem sortByValue_length (l : List Card) : (sortByValue l).length = l.length :=
  (sortByValue_perm l).length_eq

theorem mem_sortByValue {c : Card} {l : List Card} : c ∈ sortByValue l ↔ c ∈ l :=
  (sortByValue_perm l).mem_iff

theorem rankCount_sortByValue (l : List Card) (r : String) :
    rankCount (sortByValue l) r = rankCount l r :=
  (sortByValue_perm l).countP_eq _

/-- The sorted card list is ascending by value. -/
theorem sortByValue_sorted (l : List Card) : List.Sorted cardValueLE (sortByValue l) :=
  List.sorted_insertionSort cardValueLE l

/-- Every element of an ascending value list is bounded by the final
element the source reads with `v[v.length - 1]`. -/
theorem le_getLastD_of_sorted :
    ∀ (vs : List Nat), List.Sorted (fun a b => a ≤ b) vs →
      ∀ v ∈ vs, ∀ d, v ≤ vs.getLastD d := by
  intro vs
  induction vs with
  | nil => intro _ v hv; cases hv
  | cons hd t ih =>
    intro hs v hv d
    rw [List.sorted_cons] at hs
    rw [List.getLastD_cons]
    rcases List.mem_cons.mp hv with rfl | hv'
    · cases t with
      | nil => simp [List.getLastD]
      | cons b t' =>
        exact le_trans (hs.1 b (List.mem_cons_self b t'))
          (ih hs.2 b (List.mem_cons_self b t') v)
    · exact ih hs.2 v hv' hd

/-- The final element of a nonempty list is a member. -/
theorem getLastD_mem : ∀ (vs : List Nat), vs ≠ [] → ∀ d, vs.getLastD d ∈ vs := by
  intro vs
  induction vs with
  | nil => intro h; exact absurd rfl h
  | cons hd t ih =>
    intro _ d
    rw [List.getLastD_cons]
    cases t with
    | nil => simp [List.getLastD]
    | cons b t' => exact List.mem_cons_of_mem hd (ih (by simp) hd)

/-- With pairwise-distinct values and well-formed cards, the rank list
has no duplicates, so the dedup'd rank list has full length. -/
theorem ranksDedup_length_of_nodup (m : List Card) (hwf : ∀ c ∈ m, WFCard c)
    (hnd : (m.map (·.value)).Nodup) : (ranksDedup m).length = m.length := by
  have hinj := List.inj_on_of_nodup_map hnd
  have hmnd : m.Nodup := List.Nodup.of_map _ hnd
  have hranks : (m.map (·.rank)).Nodup := by
    refine List.Nodup.map_on ?_ hmnd
    intro x hx y hy hxy
    exact hinj hx hy (((hwf x hx).rank_eq_iff (hwf y hy)).mp hxy)
  unfold ranksDedup
  rw [List.dedup_eq_self.mpr hranks, List.length_map]

/-- The lookup `cardDataList.find(card => card.rank === c.rank)` finds a card whose
value equals `c.value`, by well-formedness. -/
theorem findRank_value (sorted : List Card) (hwf : ∀ c ∈ sorted, WFCard c)
    (c : Card) (hc : c ∈ sorted) :
    ∃ d, sorted.find? (fun x => decide (x.rank = c.rank)) = some d ∧ d.value = c.value := by
  cases hfind : sorted.find? (fun x => decide (x.rank = c.rank)) with
  | none =>
    exfalso
    have := List.find?_eq_none.mp hfind c hc
    simp at this
  | some d =>
    have hd := List.find?_some hfind
    have hdmem := List.mem_of_find?_eq_some hfind
    simp only [decide_eq_true_eq] at hd
    exact ⟨d, rfl, ((hwf d hdmem).rank_eq_iff (hwf c hc)).mp hd⟩

/-- Membership in `sortNat`. -/
theorem mem_sortNat {v : Nat} {vs : List Nat} : v ∈ sortNat vs ↔ v ∈ vs :=
  (List.perm_insertionSort natLE vs).mem_iff

/-- A card's value appears among the per-rank representative values. -/
theorem mem_repValues (sorted : List Card) (hwf : ∀ c ∈ sorted, WFCard c)
    (c : Card) (hc : c ∈ sorted) : c.value ∈ repValues sorted := by
  obtain ⟨d, hfind, hdv⟩ := findRank_value sorted hwf c hc
  unfold repValues
  rw [mem_sortNat]
  refine List.mem_filterMap.mpr ⟨c.rank, ?_, ?_⟩
  · exact List.mem_dedup.mpr (List.mem_map_of_mem _ hc)
  · simp [hfind, hdv]

/-- A card of a rank counted exactly three times contributes its value
to the plane section's triple values. -/
theorem mem_tripleValsOf (sorted : List Card) (hwf : ∀ c ∈ sorted, WFCard c)
    (c : Card) (hc : c ∈ sorted) (h3 : rankCount sorted c.rank = 3) :
    c.value ∈ tripleValsOf sorted := by
  obtain ⟨d, hfind, hdv⟩ := findRank_value sorted hwf c hc
  unfold tripleValsOf
  rw [mem_sortNat]
  refine List.mem_filterMap.mpr ⟨c.rank, ?_, ?_⟩
  · refine List.mem_filter.mpr ⟨List.mem_dedup.mpr (List.mem_map_of_mem _ hc), ?_⟩
    simp [h3]
  · simp [hfind, hdv]

/-- If the `< 15` filter over the triple values keeps everything, no
card with value 15 or more sits on a rank counted exactly three times. -/
theorem tripleVals_low_of_filter_eq (sorted : List Card) (hwf : ∀ c ∈ sorted, WFCard c)
    (hfl : ((tripleValsOf sorted).filter (fun v => decide (v < 15))).length
        = (tripleValsOf sorted).length) :
    ∀ c ∈ sorted, 15 ≤ c.value → rankCount sorted c.rank ≠ 3 := by
  intro c hc h15 h3
  have hmem := mem_tripleValsOf sorted hwf c hc h3
  rw [← List.countP_eq_length_filter] at hfl
  have := List.countP_eq_length.mp hfl c.value hmem
  simp at this
  omega

/-- The plane section never yields Straight or StraightOfPairs, and when
it yields a Plane variant every value-15-or-more card of the set sits on
a rank not counted exactly three times (so 2s and jokers are never among
the plane's triples). -/
theorem planeCheck_c2 (cards sorted : List Card) (hwf : ∀ c ∈ sorted, WFCard c) :
    (planeCheck cards sorted).type ≠ .straight
    ∧ (planeCheck cards sorted).type ≠ .straightPair
    ∧ (((planeCheck cards sorted).type = .plane
        ∨ (planeCheck cards sorted).type = .planeSingle
        ∨ (planeCheck cards sorted).type = .planePair) →
      ∀ c ∈ sorted, 15 ≤ c.value → rankCount sorted c.rank ≠ 3) := by
  unfold planeCheck
  dsimp only
  split
  next h1 =>
    split
    next h2 =>
      split
      next h3 => exact ⟨by simp, by simp, by simp⟩
      next h3 =>
        have hlow := tripleVals_low_of_filter_eq sorted hwf (not_ne_iff.mp h3)
        split
        next h4 =>
          split
          next h5 => exact ⟨by simp, by simp, fun _ => hlow⟩
          next h5 =>
            split
            next h6 =>
              split
              next h7 => exact ⟨by simp, by simp, fun _ => hlow⟩
              next h7 => exact ⟨by simp, by simp, by simp⟩
            next h6 =>
              split
              next h8 =>
                split
                next h9 => exact ⟨by simp, by simp, fun _ => hlow⟩
                next h9 => exact ⟨by simp, by simp, by simp⟩
              next h8 => exact ⟨by simp, by simp, by simp⟩
        next h4 => exact ⟨by simp, by simp, by simp⟩
    next h2 => exact ⟨by simp, by simp, by simp⟩
  next h1 => exact ⟨by simp, by simp, by simp⟩

/-- The straight-pairs section: with a value-15-or-more card present it
never yields Straight or StraightOfPairs, and Plane variants keep such
cards off the triples. -/
theorem straightPairCheck_c2 (cards sorted : List Card) (hwf : ∀ c ∈ sorted, WFCard c)
    (hex : ∃ c ∈ sorted, 15 ≤ c.value) :
    (straightPairCheck cards sorted).type ≠ .straight
    ∧ (straightPairCheck cards sorted).type ≠ .straightPair
    ∧ (((straightPairCheck cards sorted).type = .plane
        ∨ (straightPairCheck cards sorted).type = .planeSingle
        ∨ (straightPairCheck cards sorted).type = .planePair) →
      ∀ c ∈ sorted, 15 ≤ c.value → rankCount sorted c.rank ≠ 3) := by
  unfold straightPairCheck
  try dsimp only
  split_ifs with h1 h2 h3 h4
  · exact ⟨by simp, by simp, fun hty => absurd hty (by simp)⟩
  · exfalso
    obtain ⟨c, hc, h15⟩ := hex
    have hmem := mem_repValues sorted hwf c hc
    rw [not_ne_iff, ← List.countP_eq_length_filter] at h3
    have := List.countP_eq_length.mp h3 c.value hmem
    simp at this
    omega
  · exact planeCheck_c2 cards sorted hwf
  · exact planeCheck_c2 cards sorted hwf
  · exact planeCheck_c2 cards sorted hwf

/-- The straight section under the same hypotheses. -/
theorem straightCheck_c2 (cards sorted : List Card) (hwf : ∀ c ∈ sorted, WFCard c)
    (hlen : sorted.length = cards.length) (hex : ∃ c ∈ sorted, 15 ≤ c.value) :
    (straightCheck cards sorted).type ≠ .straight
    ∧ (straightCheck cards sorted).type ≠ .straightPair
    ∧ (((straightCheck cards sorted).type = .plane
        ∨ (straightCheck cards sorted).type = .planeSingle
        ∨ (straightCheck cards sorted).type = .planePair) →
      ∀ c ∈ sorted, 15 ≤ c.value → rankCount sorted c.rank ≠ 3) := by
  unfold straightCheck
  try dsimp only
  split_ifs with h1 h2 h3 h4
  · exact ⟨by simp, by simp, fun hty => absurd hty (by simp)⟩
  · exact ⟨by simp, by simp, fun hty => absurd hty (by simp)⟩
  · exfalso
    obtain ⟨c, hc, h15⟩ := hex
    rw [not_ne_iff, ← List.countP_eq_length_filter, ← hlen] at h3
    have := List.countP_eq_length.mp h3 c hc
    simp at this
    omega
  · exact straightPairCheck_c2 cards sorted hwf hex
  · exact straightPairCheck_c2 cards sorted hwf hex

/-- Case split: `analyzePlay` either defers to the straight section or stops in one
of the fixed-shape branches, whose types are never run types. -/
theorem analyzePlayData_type_cases (l : List Card) :
    analyzePlayData l = straightCheck l (sortByValue l)
    ∨ ((analyzePlayData l).type ≠ .straight ∧ (analyzePlayData l).type ≠ .straightPair
        ∧ (analyzePlayData l).type ≠ .plane ∧ (analyzePlayData l).type ≠ .planeSingle
        ∧ (analyzePlayData l).type ≠ .planePair) := by
  unfold analyzePlayData
  dsimp only
  split
  next h => exact Or.inr (by refine ⟨?_, ?_, ?_, ?_, ?_⟩ <;> simp)
  next h =>
    split
    next h => exact Or.inr (by refine ⟨?_, ?_, ?_, ?_, ?_⟩ <;> simp)
    next h =>
      split
      next h => exact Or.inr (by refine ⟨?_, ?_, ?_, ?_, ?_⟩ <;> simp)
      next h =>
        split
        next h => exact Or.inr (by refine ⟨?_, ?_, ?_, ?_, ?_⟩ <;> simp)
        next h =>
          split
          next h => exact Or.inr (by refine ⟨?_, ?_, ?_, ?_, ?_⟩ <;> simp)
          next h =>
            split
            next h => exact Or.inr (by refine ⟨?_, ?_, ?_, ?_, ?_⟩ <;> simp)
            next h =>
              split
              next h => exact Or.inr (by refine ⟨?_, ?_, ?_, ?_, ?_⟩ <;> simp)
              next h =>
                split
                next h => exact Or.inr (by refine ⟨?_, ?_, ?_, ?_, ?_⟩ <;> simp)
                next h =>
                  split
                  next h => exact Or.inr (by refine ⟨?_, ?_, ?_, ?_, ?_⟩ <;> simp)
                  next h =>
                    split
                    next h => exact Or.inr (by refine ⟨?_, ?_, ?_, ?_, ?_⟩ <;> simp)
                    next h =>
                      exact Or.inl rfl

/-- The 2♠3♠4♥5♦6♣ example of the spec. -/
def straightWith2Ex : List Card :=
  [mkCard 1 "spades" 15, mkCard 2 "spades" 3, mkCard 3 "hearts" 4,
   mkCard 4 "diamonds" 5, mkCard 5 "clubs" 6]

/-- A plane 333444 with a 2 and a joker attached as wing singles. -/
def planeWingEx : List Card :=
  [mkCard 1 "spades" 3, mkCard 2 "hearts" 3, mkCard 3 "diamonds" 3,
   mkCard 4 "spades" 4, mkCard 5 "hearts" 4, mkCard 6 "diamonds" 4,
   mkCard 7 "spades" 15, mkCard 8 "joker" 16]

/-- C2 counterexample: a set containing a 2 (value 15) and a joker is
classified as a Plane variant — the run exclusion applies to the
consecutive triples only, not to the attached wings. -/
theorem C2_counterexample :
    (analyzePlayData planeWingEx).type = .planeSingle
      ∧ ∃ c ∈ planeWingEx, 15 ≤ c.value := by
  decide

/-- C2 (amended): for every well-formed card set containing a "2"
(value 15) or a joker, classify never returns Straight or
StraightOfPairs; it may return a Plane variant, but only with every such
card outside the consecutive triples (no rank of count three carries a
value of 15 or more); and classify([2♠,3♠,4♥,5♦,6♣]) is Invalid. -/
theorem C2_no_high_cards_in_runs (l : List Card) (hwf : ∀ c ∈ l, WFCard c)
    (hex : ∃ c ∈ l, 15 ≤ c.value) :
    ((analyzePlayData l).type ≠ .straight ∧ (analyzePlayData l).type ≠ .straightPair)
    ∧ (((analyzePlayData l).type = .plane ∨ (analyzePlayData l).type = .planeSingle
        ∨ (analyzePlayData l).type = .planePair) →
      ∀ c ∈ l, 15 ≤ c.value → rankCount l c.rank ≠ 3)
    ∧ (analyzePlayData straightWith2Ex).type = .invalid := by
  have hwfs : ∀ c ∈ sortByValue l, WFCard c := fun c hc => hwf c (mem_sortByValue.mp hc)
  have hexs : ∃ c ∈ sortByValue l, 15 ≤ c.value := by
    obtain ⟨c, hc, h15⟩ := hex
    exact ⟨c, mem_sortByValue.mpr hc, h15⟩
  have hsc := straightCheck_c2 l (sortByValue l) hwfs (sortByValue_length l) hexs
  rcases analyzePlayData_type_cases l with heq | hne
  · rw [heq]
    refine ⟨⟨hsc.1, hsc.2.1⟩, ?_, by decide⟩
    intro hty c hc h15
    have := hsc.2.2 hty c (mem_sortByValue.mpr hc) h15
    rwa [rankCount_sortByValue] at this
  · refine ⟨⟨hne.1, hne.2.1⟩, ?_, by decide⟩
    intro hty
    rcases hty with h | h | h
    · exact absurd h hne.2.2.1
    · exact absurd h hne.2.2.2.1
    · exact absurd h hne.2.2.2.2

/-- C2 witness: the amended statement at the spec's concrete example. -/
theorem C2_witness :
    (analyzePlayData straightWith2Ex).type ≠ .straight
      ∧ (analyzePlayData straightWith2Ex).type = .invalid := by
  have h := C2_no_high_cards_in_runs straightWith2Ex (by decide) (by decide)
  exact ⟨h.1.1, h.2.2⟩

/-- With five or more cards and pairwise-distinct ranks, every
fixed-shape branch of `analyzePlay` is skipped. -/
theorem analyzePlayData_eq_straightCheck (l : List Card) (h5 : 5 ≤ l.length)
    (hded : (ranksDedup (sortByValue l)).length = l.length) :
    analyzePlayData l = straightCheck l (sortByValue l) := by
  unfold analyzePlayData
  dsimp only
  rw [if_neg (by omega)]
  rw [if_neg (by rintro ⟨h2, -⟩; omega)]
  rw [if_neg (by rintro ⟨h4, -⟩; omega)]
  rw [if_neg (by rintro ⟨h6, hd3, -⟩; rw [hded] at hd3; omega)]
  rw [if_neg (by rintro ⟨h8, hd3, -⟩; rw [hded] at hd3; omega)]
  rw [if_neg (by omega)]
  rw [if_neg (by rintro ⟨h2, -⟩; omega)]
  rw [if_neg (by rintro ⟨h3, -, -⟩; omega)]
  rw [if_neg (by rintro ⟨h4, -, -, -⟩; omega)]
  rw [if_neg (by rintro ⟨hl5, hd2, -, -⟩; rw [hded] at hd2; omega)]

/-- The straight section classifies a joker-free, all-below-15,
distinct-rank consecutive run as a Straight whose power is the last
(highest) sorted value. -/
theorem straightCheck_eq_straight (cards sorted : List Card)
    (h5 : 5 ≤ cards.length) (hded : (ranksDedup sorted).length = cards.length)
    (hnoj : ∀ c ∈ sorted, c.suit ≠ "joker")
    (hlow : ∀ c ∈ sorted, c.value < 15)
    (hlen : sorted.length = cards.length)
    (hcons : consecVals (sorted.map (·.value)) = true) :
    straightCheck cards sorted
      = ⟨.straight, (sorted.map (·.value)).getLastD 0, cards⟩ := by
  unfold straightCheck
  rw [if_pos ⟨h5, hded⟩]
  rw [if_neg (by
    simp only [List.any_eq_true, decide_eq_true_eq, not_exists]
    rintro x ⟨hx, hs⟩
    exact hnoj x hx hs)]
  rw [if_neg (by
    have hfe : (sorted.filter fun c => decide (c.value < 15)) = sorted :=
      List.filter_eq_self.mpr (fun a ha => by simpa using hlow a ha)
    exact not_ne_iff.mpr (by rw [hfe, hlen]))]
  rw [if_pos hcons]

/-- The 3♠4♠5♥6♦7♣ example of the spec. -/
def straight37Ex : List Card :=
  [mkCard 1 "spades" 3, mkCard 2 "spades" 4, mkCard 3 "hearts" 5,
   mkCard 4 "diamonds" 6, mkCard 5 "clubs" 7]

/-- C1: every well-formed set of five or more cards with pairwise
distinct values, all below 15 (so no "2" and no joker), whose sorted
values are strictly consecutive, classifies as a Straight whose power is
one of its values and bounds them all (i.e. the highest rank of the
run); in particular classify([3♠,4♠,5♥,6♦,7♣]) is a Straight of
power 7. -/
theorem C1_straight_classification (l : List Card) (hwf : ∀ c ∈ l, WFCard c)
    (h5 : 5 ≤ l.length) (hlow : ∀ c ∈ l, c.value < 15)
    (hnd : (l.map (·.value)).Nodup)
    (hcons : consecVals ((sortByValue l).map (·.value)) = true) :
    ((analyzePlayData l).type = .straight
      ∧ (analyzePlayData l).power ∈ l.map (·.value)
      ∧ ∀ c ∈ l, c.value ≤ (analyzePlayData l).power)
    ∧ analyzePlayData straight37Ex = ⟨.straight, 7, straight37Ex⟩ := by
  have hperm := sortByValue_perm l
  have hwfs : ∀ c ∈ sortByValue l, WFCard c := fun c hc => hwf c (mem_sortByValue.mp hc)
  have hlows : ∀ c ∈ sortByValue l, c.value < 15 :=
    fun c hc => hlow c (mem_sortByValue.mp hc)
  have hnds : ((sortByValue l).map (·.value)).Nodup :=
    ((hperm.map (·.value)).nodup_iff).mpr hnd
  have hded : (ranksDedup (sortByValue l)).length = l.length := by
    rw [ranksDedup_length_of_nodup (sortByValue l) hwfs hnds, sortByValue_length]
  have hnoj : ∀ c ∈ sortByValue l, c.suit ≠ "joker" := by
    intro c hc hs
    have h16 := ((hwfs c hc).2.2.2).mp hs
    have := hlows c hc
    omega
  have heq := analyzePlayData_eq_straightCheck l h5 hded
  have heq2 := straightCheck_eq_straight l (sortByValue l) h5 hded hnoj hlows
    (sortByValue_length l) hcons
  rw [heq, heq2]
  have hne : (sortByValue l).map (·.value) ≠ [] := by
    have : ((sortByValue l).map (·.value)).length = l.length := by
      rw [List.length_map, sortByValue_length]
    intro hnil
    rw [hnil] at this
    simp at this
    omega
  refine ⟨⟨rfl, ?_, ?_⟩, by decide⟩
  · have hmem := getLastD_mem _ hne 0
    exact (hperm.map (·.value)).mem_iff.mp hmem
  · intro c hc
    have hsorted : List.Pairwise (fun x y : Nat => x ≤ y) ((sortByValue l).map (·.value)) :=
      List.Pairwise.map _ (fun a b h => h) (sortByValue_sorted l)
    have hcv : c.value ∈ (sortByValue l).map (·.value) :=
      List.mem_map_of_mem _ (mem_sortByValue.mpr hc)
    exact le_getLastD_of_sorted _ hsorted c.value hcv 0

/-- C1 witness: the spec's example run 3..7 through the main theorem. -/
theorem C1_witness :
    (analyzePlayData straight37Ex).type = .straight
      ∧ analyzePlayData straight37Ex = ⟨.straight, 7, straight37Ex⟩ := by
  have h := C1_straight_classification straight37Ex (by decide) (by decide) (by decide)
    (by decide) (by decide)
  exact ⟨h.1.1, h.2⟩

/-! ### C5 support lemmas -/

/-- Count `counts.get(value)` on values (the value analogue of `rankCount`). -/
def valCount (l : List Card) (v : Nat) : Nat := l.countP (fun c => c.value == v)

theorem valCount_sortByValue (l : List Card) (v : Nat) :
    valCount (sortByValue l) v = valCount l v :=
  (sortByValue_perm l).countP_eq _

/-- On a well-formed list, counting a card's rank equals counting its
value. -/
theorem rankCount_eq_valCount (m : List Card) (hwf : ∀ c ∈ m, WFCard c)
    (c : Card) (hc : c ∈ m) : rankCount m c.rank = valCount m c.value := by
  unfold rankCount valCount
  apply List.countP_congr
  intro x hx
  simp only [decide_eq_true_eq, beq_iff_eq]
  exact (hwf x hx).rank_eq_iff (hwf c hc)

/-- A positive value count exhibits a card of that value. -/
theorem valCount_pos (m : List Card) (v : Nat) (h : 0 < valCount m v) :
    ∃ c ∈ m, c.value = v := by
  obtain ⟨c, hc, hcv⟩ := List.countP_pos_iff.mp h
  exact ⟨c, hc, by simpa using hcv⟩

/-- Every dedup'd rank comes from some card. -/
theorem rank_has_card (m : List Card) (r : String) (hr : r ∈ ranksDedup m) :
    ∃ c ∈ m, c.rank = r := by
  unfold ranksDedup at hr
  rw [List.mem_dedup] at hr
  obtain ⟨c, hc, hcr⟩ := List.mem_map.mp hr
  exact ⟨c, hc, hcr⟩

/-- The per-rank counts sum to the number of cards. -/
theorem rankCountsList_sum (m : List Card) : (rankCountsList m).sum = m.length := by
  unfold rankCountsList ranksDedup rankCount
  have h := List.sum_map_count_dedup_eq_length (m.map (·.rank))
  rw [List.length_map] at h
  rw [← h]
  congr 1
  apply List.map_congr_left
  intro r hr
  rw [List.count_eq_countP, List.countP_map]
  apply List.countP_congr
  intro x hx
  simp only [decide_eq_true_eq, Function.comp_apply, beq_iff_eq]

/-- Mapping `filterMap` with a totally-defined function keeps the length. -/
theorem filterMap_length_of_all_some {α β : Type} (f : α → Option β) (l : List α)
    (h : ∀ a ∈ l, (f a).isSome) : (l.filterMap f).length = l.length := by
  induction l with
  | nil => rfl
  | cons a t ih =>
    have ha := h a (List.mem_cons_self a t)
    cases hfa : f a with
    | none => rw [hfa] at ha; cases ha
    | some b =>
      rw [List.filterMap_cons, hfa]
      simp only [List.length_cons]
      rw [ih (fun x hx => h x (List.mem_cons_of_mem a hx))]

/-- The number of triple values equals the number of triple ranks. -/
theorem tripleValsOf_length (sorted : List Card) :
    (tripleValsOf sorted).length
      = ((ranksDedup sorted).filter (fun r => rankCount sorted r == 3)).length := by
  unfold tripleValsOf sortNat
  rw [(List.perm_insertionSort natLE _).length_eq]
  apply filterMap_length_of_all_some
  intro r hr
  obtain ⟨c, hc, hcr⟩ := rank_has_card sorted r (List.mem_filter.mp hr).1
  have hs : (sorted.find? (fun x => decide (x.rank = r))).isSome = true :=
    List.find?_isSome.mpr ⟨c, hc, by simp [hcr]⟩
  obtain ⟨d, hd⟩ := Option.isSome_iff_exists.mp hs
  rw [hd]
  rfl

/-- Splitting a mapped sum along a Boolean predicate. -/
theorem sum_map_split {α : Type} (p : α → Bool) (f : α → Nat) (l : List α) :
    ((l.filter p).map f).sum + ((l.filter (fun a => !p a)).map f).sum = (l.map f).sum := by
  induction l with
  | nil => rfl
  | cons a t ih =>
    cases hpa : p a <;>
      simp only [List.filter_cons, hpa, Bool.not_true, Bool.not_false, cond_true, cond_false,
        if_pos, if_neg, List.map_cons, List.sum_cons] <;>
      simp only [Bool.false_eq_true, if_false, if_true, List.map_cons, List.sum_cons] <;>
      omega

/-- A list of constants sums to the constant times the length. -/
theorem sum_of_constant (k : Nat) : ∀ (m : List Nat), (∀ x ∈ m, x = k) → m.sum = m.length * k := by
  intro m
  induction m with
  | nil => intro _; simp
  | cons a t ih =>
    intro h
    have ha := h a (List.mem_cons_self a t)
    rw [List.sum_cons, ih (fun x hx => h x (List.mem_cons_of_mem a hx)), ha,
      List.length_cons]
    ring

/-- With five or more cards, `analyzePlay` reduces to the two four-with
branches, the triple-with-pair branch and the straight section. -/
theorem analyzePlayData_ge5 (l : List Card) (h5 : 5 ≤ l.length) :
    analyzePlayData l =
      (if l.length = 6 ∧ (ranksDedup (sortByValue l)).length = 3
          ∧ (rankCountsList (sortByValue l)).contains 4
          ∧ (rankCountsList (sortByValue l)).count 1 = 2 then
        (⟨.fourSingle, fourOfAKindPower (sortByValue l), l⟩ : PlayInfo)
      else if l.length = 8 ∧ (ranksDedup (sortByValue l)).length = 3
          ∧ (rankCountsList (sortByValue l)).contains 4
          ∧ (rankCountsList (sortByValue l)).count 2 = 2 then
        ⟨.fourPair, fourOfAKindPower (sortByValue l), l⟩
      else if l.length = 5 ∧ (ranksDedup (sortByValue l)).length = 2
          ∧ (rankCountsList (sortByValue l)).contains 3
          ∧ (rankCountsList (sortByValue l)).contains 2 then
        ⟨.triplePair, tripleOfAKindPower (sortByValue l), l⟩
      else straightCheck l (sortByValue l)) := by
  unfold analyzePlayData
  dsimp only
  rw [if_neg (show ¬(l.length = 0) by omega)]
  rw [if_neg (show ¬(l.length = 2 ∧ (nthCard (sortByValue l) 0).suit = "joker"
      ∧ (nthCard (sortByValue l) 1).suit = "joker"
      ∧ (nthCard (sortByValue l) 0).rank ≠ (nthCard (sortByValue l) 1).rank) by
    rintro ⟨h2, -⟩; omega)]
  rw [if_neg (show ¬(l.length = 4
      ∧ ((sortByValue l).all fun c => decide (c.rank = (nthCard (sortByValue l) 0).rank)) = true) by
    rintro ⟨h4, -⟩; omega)]
  rw [if_neg (show ¬(l.length = 1) by omega)]
  rw [if_neg (show ¬(l.length = 2
      ∧ (nthCard (sortByValue l) 0).rank = (nthCard (sortByValue l) 1).rank) by
    rintro ⟨h2, -⟩; omega)]
  rw [if_neg (show ¬(l.length = 3
      ∧ (nthCard (sortByValue l) 0).rank = (nthCard (sortByValue l) 1).rank
      ∧ (nthCard (sortByValue l) 1).rank = (nthCard (sortByValue l) 2).rank) by
    rintro ⟨h3, -⟩; omega)]
  rw [if_neg (show ¬(l.length = 4 ∧ (ranksDedup (sortByValue l)).length = 2
      ∧ (rankCountsList (sortByValue l)).contains 3 = true
      ∧ (rankCountsList (sortByValue l)).contains 1 = true) by
    rintro ⟨h4, -⟩; omega)]

/-- Counting a rank among the mapped rank strings is `rankCount`. -/
theorem rankCount_eq_count_map (m : List Card) (r : String) :
    List.count r (m.map (·.rank)) = rankCount m r := by
  rw [List.count_eq_countP, List.countP_map]
  apply List.countP_congr
  intro x hx
  simp only [decide_eq_true_eq, Function.comp_apply, beq_iff_eq]

/-- A rank represented four times prevents the distinct-ranks gate of
the straight section from holding. -/
theorem not_distinct_of_count4 (cards sorted : List Card)
    (hwf : ∀ c ∈ sorted, WFCard c) (hlen : sorted.length = cards.length)
    (v : Nat) (hv : valCount sorted v = 4) :
    ¬((ranksDedup sorted).length = cards.length) := by
  intro hded
  obtain ⟨c, hc, hcv⟩ := valCount_pos sorted v (by omega)
  have hr4 : rankCount sorted c.rank = 4 := by
    rw [rankCount_eq_valCount sorted hwf c hc, hcv]
    exact hv
  have hsub := List.dedup_sublist (sorted.map (·.rank))
  have hlen2 : (ranksDedup sorted).length = (sorted.map (·.rank)).length := by
    rw [List.length_map, hlen]
    exact hded
  have heq := hsub.eq_of_length hlen2
  have hnd : (sorted.map (·.rank)).Nodup := by
    rw [← heq]
    exact List.nodup_dedup _
  have hle := List.nodup_iff_count_le_one.mp hnd c.rank
  rw [rankCount_eq_count_map] at hle
  omega

/-- With a four-times value the straight section falls through to the
straight-pairs section. -/
theorem straightCheck_skip_of_count4 (cards sorted : List Card)
    (hwf : ∀ c ∈ sorted, WFCard c) (hlen : sorted.length = cards.length)
    (v : Nat) (hv : valCount sorted v = 4) :
    straightCheck cards sorted = straightPairCheck cards sorted := by
  unfold straightCheck
  rw [if_neg]
  rintro ⟨-, hded⟩
  exact not_distinct_of_count4 cards sorted hwf hlen v hv hded

/-- With a four-times value the straight-pairs section falls through to
the plane section. -/
theorem straightPairCheck_skip_of_count4 (cards sorted : List Card)
    (hwf : ∀ c ∈ sorted, WFCard c) (v : Nat) (hv : valCount sorted v = 4) :
    straightPairCheck cards sorted = planeCheck cards sorted := by
  obtain ⟨c, hc, hcv⟩ := valCount_pos sorted v (by omega)
  have hr4 : rankCount sorted c.rank = 4 := by
    rw [rankCount_eq_valCount sorted hwf c hc, hcv]
    exact hv
  have hmem : c.rank ∈ ranksDedup sorted :=
    List.mem_dedup.mpr (List.mem_map_of_mem _ hc)
  have hall : ¬(((ranksDedup sorted).all fun r => rankCount sorted r == 2) = true) := by
    intro hall
    have := List.all_eq_true.mp hall c.rank hmem
    rw [hr4] at this
    simp at this
  unfold straightPairCheck
  rw [if_neg hall, ite_self]

/-- With a four-times value the plane section classifies as Invalid. -/
theorem planeCheck_invalid_of_count4 (cards sorted : List Card)
    (hwf : ∀ c ∈ sorted, WFCard c) (hlen : sorted.length = cards.length)
    (v : Nat) (hv : valCount sorted v = 4) :
    (planeCheck cards sorted).type = .invalid := by
  obtain ⟨c, hc, hcv⟩ := valCount_pos sorted v (by omega)
  have hr4 : rankCount sorted c.rank = 4 := by
    rw [rankCount_eq_valCount sorted hwf c hc, hcv]
    exact hv
  have hmem : c.rank ∈ ranksDedup sorted :=
    List.mem_dedup.mpr (List.mem_map_of_mem _ hc)
  have hmemNT : c.rank ∈ (ranksDedup sorted).filter (fun r => rankCount sorted r != 3) := by
    refine List.mem_filter.mpr ⟨hmem, ?_⟩
    rw [hr4]
    decide
  unfold planeCheck
  dsimp only
  split
  next h1 =>
    split
    next h2 =>
      split
      next h3 => rfl
      next h3 =>
        split
        next h4 =>
          split
          next h5 =>
            exfalso
            have hsum := rankCountsList_sum sorted
            have hsplit := sum_map_split (fun r => rankCount sorted r == 3)
              (fun r => rankCount sorted r) (ranksDedup sorted)
            have hK := tripleValsOf_length sorted
            have hleft : ((((ranksDedup sorted).filter
                (fun r => rankCount sorted r == 3)).map (fun r => rankCount sorted r)).sum)
                = (((ranksDedup sorted).filter
                    (fun r => rankCount sorted r == 3)).map (fun r => rankCount sorted r)).length
                  * 3 := by
              apply sum_of_constant
              intro x hx
              obtain ⟨r, hr, rfl⟩ := List.mem_map.mp hx
              have := (List.mem_filter.mp hr).2
              simpa using this
            have hright : 4 ≤ (((ranksDedup sorted).filter
                (fun r => !(rankCount sorted r == 3))).map (fun r => rankCount sorted r)).sum := by
              apply List.single_le_sum (fun x _ => Nat.zero_le x)
              rw [← hr4]
              apply List.mem_map_of_mem
              refine List.mem_filter.mpr ⟨hmem, ?_⟩
              rw [hr4]
              decide
            rw [List.length_map] at hleft
            unfold rankCountsList at hsum
            rw [← hsplit, hleft] at hsum
            rw [hK] at h5
            omega
          next h5 =>
            split
            next h6 =>
              split
              next h7 =>
                exfalso
                have := List.all_eq_true.mp h7.1 c.rank hmemNT
                rw [hr4] at this
                simp at this
              next h7 => rfl
            next h6 =>
              split
              next h8 =>
                split
                next h9 =>
                  exfalso
                  have := List.all_eq_true.mp h9.1 c.rank hmemNT
                  rw [hr4] at this
                  simp at this
                next h9 => rfl
              next h8 => rfl
        next h4 => rfl
    next h2 => rfl
  next h1 => rfl

/-- With a four-times value the whole straight section yields Invalid. -/
theorem straightSection_invalid_of_count4 (cards sorted : List Card)
    (hwf : ∀ c ∈ sorted, WFCard c) (hlen : sorted.length = cards.length)
    (v : Nat) (hv : valCount sorted v = 4) :
    (straightCheck cards sorted).type = .invalid := by
  rw [straightCheck_skip_of_count4 cards sorted hwf hlen v hv,
    straightPairCheck_skip_of_count4 cards sorted hwf v hv]
  exact planeCheck_invalid_of_count4 cards sorted hwf hlen v hv

/-- Counting three pairwise-distinct values separately. -/
theorem countP_or3 (l : List Card) (v a b : Nat) (hva : v ≠ a) (hvb : v ≠ b) (hab : a ≠ b) :
    l.countP (fun c => c.value == v || c.value == a || c.value == b)
      = valCount l v + valCount l a + valCount l b := by
  induction l with
  | nil => rfl
  | cons x t ih =>
    unfold valCount at *
    rw [List.countP_cons, List.countP_cons, List.countP_cons, List.countP_cons, ih]
    by_cases h1 : x.value = v <;> by_cases h2 : x.value = a <;> by_cases h3 : x.value = b <;>
      simp [h1, h2, h3, hva, hvb, hab, Ne.symm hva, Ne.symm hvb, Ne.symm hab] <;> omega

/-- A three-slot count list containing a 4 with exactly two slots equal
to `k` is `(4, k, k)` up to position. -/
theorem three_counts_cases (k c1 c2 c3 : Nat) (hk : k ≠ 4)
    (hcont : ([c1, c2, c3].contains 4) = true)
    (hcnt : List.count k [c1, c2, c3] = 2) :
    (c1 = 4 ∧ c2 = k ∧ c3 = k) ∨ (c1 = k ∧ c2 = 4 ∧ c3 = k)
      ∨ (c1 = k ∧ c2 = k ∧ c3 = 4) := by
  simp at hcont
  simp only [List.count_cons, List.count_nil, beq_iff_eq] at hcnt
  split_ifs at hcnt <;> omega

/-- The triple-with-pair branch cannot fire when some rank is counted
four times. -/
theorem triplePairCond_false (sorted : List Card) (hwf : ∀ c ∈ sorted, WFCard c)
    (v : Nat) (hv : valCount sorted v = 4) :
    ¬((ranksDedup sorted).length = 2 ∧ (rankCountsList sorted).contains 3 = true
      ∧ (rankCountsList sorted).contains 2 = true) := by
  rintro ⟨hd2, hc3, hc2⟩
  obtain ⟨cq, hcq, hcqv⟩ := valCount_pos sorted v (by omega)
  have hr4 : rankCount sorted cq.rank = 4 := by
    rw [rankCount_eq_valCount sorted hwf cq hcq, hcqv]
    exact hv
  have h4mem : (4 : Nat) ∈ rankCountsList sorted := by
    rw [← hr4]
    exact List.mem_map_of_mem _ (List.mem_dedup.mpr (List.mem_map_of_mem _ hcq))
  obtain ⟨r1, r2, heq⟩ := List.length_eq_two.mp hd2
  unfold rankCountsList at h4mem hc3 hc2
  rw [heq] at h4mem hc3 hc2
  simp at h4mem hc3 hc2
  omega

/-- When exactly one rank is counted four times, `fourOfAKindPower`
reads that rank's (well-formed) value. -/
theorem fourOfAKindPower_eq (sorted : List Card) (hwf : ∀ c ∈ sorted, WFCard c)
    (cq : Card) (hcq : cq ∈ sorted) (hr4 : rankCount sorted cq.rank = 4)
    (huniq : ∀ r ∈ ranksDedup sorted, rankCount sorted r = 4 → r = cq.rank) :
    fourOfAKindPower sorted = cq.value := by
  have hqmem : cq.rank ∈ (ranksDedup sorted).filter (fun r => rankCount sorted r == 4) := by
    refine List.mem_filter.mpr ⟨List.mem_dedup.mpr (List.mem_map_of_mem _ hcq), ?_⟩
    simp [hr4]
  have hne : (ranksDedup sorted).filter (fun r => rankCount sorted r == 4) ≠ [] := by
    intro h
    rw [h] at hqmem
    cases hqmem
  have hlast := List.getLast?_eq_getLast _ hne
  have hlastmem := List.getLast_mem hne
  have hlasteq : ((ranksDedup sorted).filter (fun r => rankCount sorted r == 4)).getLast hne
      = cq.rank := by
    have hf := List.mem_filter.mp hlastmem
    exact huniq _ hf.1 (by simpa using hf.2)
  obtain ⟨d, hfind, hdval⟩ := findRank_value sorted hwf cq hcq
  unfold fourOfAKindPower
  rw [hlast, hlasteq]
  dsimp only
  rw [hfind]
  exact hdval

/-- The four-with branch condition holds exactly when, besides the
four-times value, the set carries exactly two further values counted
`k` times each (`k = 1`: two singles; `k = 2`: two pairs). -/
theorem fourCond_iff (sorted : List Card) (hwf : ∀ c ∈ sorted, WFCard c)
    (v : Nat) (hv : valCount sorted v = 4)
    (k : Nat) (hkneq : k ≠ 4) (hkpos : 0 < k)
    (hlen : sorted.length = 4 + 2 * k) :
    ((ranksDedup sorted).length = 3 ∧ (rankCountsList sorted).contains 4 = true
      ∧ (rankCountsList sorted).count k = 2)
    ↔ ∃ a b, a ≠ b ∧ valCount sorted a = k ∧ valCount sorted b = k := by
  constructor
  · rintro ⟨hd3, hcont, hcnt⟩
    obtain ⟨r1, r2, r3, heq⟩ := List.length_eq_three.mp hd3
    have hcl : rankCountsList sorted
        = [rankCount sorted r1, rankCount sorted r2, rankCount sorted r3] := by
      unfold rankCountsList
      rw [heq]
      rfl
    rw [hcl] at hcont hcnt
    have hpat := three_counts_cases k _ _ _ hkneq hcont hcnt
    have hnd : (ranksDedup sorted).Nodup := List.nodup_dedup _
    rw [heq] at hnd
    have h12 : r1 ≠ r2 := by
      intro h
      rw [h] at hnd
      simp [List.nodup_cons] at hnd
    have h13 : r1 ≠ r3 := by
      intro h
      rw [h] at hnd
      simp [List.nodup_cons] at hnd
    have h23 : r2 ≠ r3 := by
      intro h
      rw [h] at hnd
      simp [List.nodup_cons] at hnd
    have hm1 : r1 ∈ ranksDedup sorted := by rw [heq]; simp
    have hm2 : r2 ∈ ranksDedup sorted := by rw [heq]; simp
    have hm3 : r3 ∈ ranksDedup sorted := by rw [heq]; simp
    have mk2 : ∀ ra rb : String, ra ∈ ranksDedup sorted → rb ∈ ranksDedup sorted →
        ra ≠ rb → rankCount sorted ra = k → rankCount sorted rb = k →
        ∃ a b, a ≠ b ∧ valCount sorted a = k ∧ valCount sorted b = k := by
      intro ra rb hra hrb hne hca hcb
      obtain ⟨c1, hc1, hc1r⟩ := rank_has_card sorted ra hra
      obtain ⟨c2, hc2, hc2r⟩ := rank_has_card sorted rb hrb
      refine ⟨c1.value, c2.value, ?_, ?_, ?_⟩
      · intro hv12
        apply hne
        rw [← hc1r, ← hc2r]
        exact ((hwf c1 hc1).rank_eq_iff (hwf c2 hc2)).mpr hv12
      · rw [← rankCount_eq_valCount sorted hwf c1 hc1, hc1r]
        exact hca
      · rw [← rankCount_eq_valCount sorted hwf c2 hc2, hc2r]
        exact hcb
    rcases hpat with ⟨p1, p2, p3⟩ | ⟨p1, p2, p3⟩ | ⟨p1, p2, p3⟩
    · exact mk2 r2 r3 hm2 hm3 h23 p2 p3
    · exact mk2 r1 r3 hm1 hm3 h13 p1 p3
    · exact mk2 r1 r2 hm1 hm2 h12 p1 p2
  · rintro ⟨a, b, hab, ha, hb⟩
    have hva : v ≠ a := by
      intro h
      rw [h] at hv
      omega
    have hvb : v ≠ b := by
      intro h
      rw [h] at hv
      omega
    obtain ⟨cq, hcq, hcqv⟩ := valCount_pos sorted v (by omega)
    obtain ⟨ca, hca, hcav⟩ := valCount_pos sorted a (by omega)
    obtain ⟨cb, hcb, hcbv⟩ := valCount_pos sorted b (by omega)
    have hsum := countP_or3 sorted v a b hva hvb hab
    rw [hv, ha, hb] at hsum
    have hlen2 : sorted.countP
        (fun c => c.value == v || c.value == a || c.value == b) = sorted.length := by
      rw [hsum, hlen]
      ring
    have hall : ∀ c ∈ sorted, c.value = v ∨ c.value = a ∨ c.value = b := by
      intro c hc
      have := List.countP_eq_length.mp hlen2 c hc
      simp only [Bool.or_eq_true, beq_iff_eq] at this
      tauto
    have hq4 : rankCount sorted cq.rank = 4 := by
      rw [rankCount_eq_valCount sorted hwf cq hcq, hcqv]
      exact hv
    have hak : rankCount sorted ca.rank = k := by
      rw [rankCount_eq_valCount sorted hwf ca hca, hcav]
      exact ha
    have hbk : rankCount sorted cb.rank = k := by
      rw [rankCount_eq_valCount sorted hwf cb hcb, hcbv]
      exact hb
    have hrqa : cq.rank ≠ ca.rank := by
      intro h
      apply hva
      have := ((hwf cq hcq).rank_eq_iff (hwf ca hca)).mp h
      rw [hcqv, hcav] at this
      exact this
    have hrqb : cq.rank ≠ cb.rank := by
      intro h
      apply hvb
      have := ((hwf cq hcq).rank_eq_iff (hwf cb hcb)).mp h
      rw [hcqv, hcbv] at this
      exact this
    have hrab : ca.rank ≠ cb.rank := by
      intro h
      apply hab
      have := ((hwf ca hca).rank_eq_iff (hwf cb hcb)).mp h
      rw [hcav, hcbv] at this
      exact this
    have hndL : (ranksDedup sorted).Nodup := List.nodup_dedup _
    have hndR : ([cq.rank, ca.rank, cb.rank] : List String).Nodup := by
      simp [List.nodup_cons, hrqa, hrqb, hrab]
    have htof : (ranksDedup sorted).toFinset
        = ([cq.rank, ca.rank, cb.rank] : List String).toFinset := by
      ext x
      simp only [List.mem_toFinset]
      constructor
      · intro hx
        obtain ⟨c, hc, hcr⟩ := rank_has_card sorted x hx
        subst hcr
        rcases hall c hc with h | h | h
        · have : c.rank = cq.rank :=
            ((hwf c hc).rank_eq_iff (hwf cq hcq)).mpr (by rw [h, hcqv])
          simp [this]
        · have : c.rank = ca.rank :=
            ((hwf c hc).rank_eq_iff (hwf ca hca)).mpr (by rw [h, hcav])
          simp [this]
        · have : c.rank = cb.rank :=
            ((hwf c hc).rank_eq_iff (hwf cb hcb)).mpr (by rw [h, hcbv])
          simp [this]
      · intro hx
        rcases List.mem_cons.mp hx with rfl | hx'
        · exact List.mem_dedup.mpr (List.mem_map_of_mem _ hcq)
        · rcases List.mem_cons.mp hx' with rfl | hx''
          · exact List.mem_dedup.mpr (List.mem_map_of_mem _ hca)
          · rcases List.mem_cons.mp hx'' with rfl | hx3
            · exact List.mem_dedup.mpr (List.mem_map_of_mem _ hcb)
            · cases hx3
    have hperm3 : (ranksDedup sorted).Perm [cq.rank, ca.rank, cb.rank] :=
      List.perm_of_nodup_nodup_toFinset_eq hndL hndR htof
    refine ⟨?_, ?_, ?_⟩
    · rw [hperm3.length_eq]
      rfl
    · have h4m : (4 : Nat) ∈ rankCountsList sorted := by
        rw [← hq4]
        exact List.mem_map_of_mem _ (List.mem_dedup.mpr (List.mem_map_of_mem _ hcq))
      simpa using h4m
    · have hpermC : (rankCountsList sorted).Perm [4, k, k] := by
        unfold rankCountsList
        have hmp := hperm3.map (fun r => rankCount sorted r)
        have : (([cq.rank, ca.rank, cb.rank] : List String).map
            (fun r => rankCount sorted r)) = [4, k, k] := by
          simp [hq4, hak, hbk]
        rw [this] at hmp
        exact hmp
      rw [hpermC.count_eq]
      have h4k : ¬((4 : Nat) = k) := fun h => hkneq h.symm
      simp [List.count_cons, h4k]

/-- Inside a fired four-with branch the extracted power is the
four-times value. -/
theorem fourPower_of_cond (sorted : List Card) (hwf : ∀ c ∈ sorted, WFCard c)
    (v : Nat) (hv : valCount sorted v = 4) (k : Nat) (hkneq : k ≠ 4)
    (hd3 : (ranksDedup sorted).length = 3)
    (hcont : (rankCountsList sorted).contains 4 = true)
    (hcnt : (rankCountsList sorted).count k = 2) :
    fourOfAKindPower sorted = v := by
  obtain ⟨cq, hcq, hcqv⟩ := valCount_pos sorted v (by omega)
  have hr4 : rankCount sorted cq.rank = 4 := by
    rw [rankCount_eq_valCount sorted hwf cq hcq, hcqv]
    exact hv
  obtain ⟨r1, r2, r3, heq⟩ := List.length_eq_three.mp hd3
  have hcl : rankCountsList sorted
      = [rankCount sorted r1, rankCount sorted r2, rankCount sorted r3] := by
    unfold rankCountsList
    rw [heq]
    rfl
  rw [hcl] at hcont hcnt
  have hpat := three_counts_cases k _ _ _ hkneq hcont hcnt
  have hqm : cq.rank ∈ ranksDedup sorted :=
    List.mem_dedup.mpr (List.mem_map_of_mem _ hcq)
  rw [heq] at hqm
  have key : ∀ r' ∈ ([r1, r2, r3] : List String), rankCount sorted r' = 4 →
      ∀ s' ∈ ([r1, r2, r3] : List String), rankCount sorted s' = 4 → r' = s' := by
    intro r' hr' h4 s' hs' h4'
    simp only [List.mem_cons, List.not_mem_nil, or_false] at hr' hs'
    rcases hpat with ⟨p1, p2, p3⟩ | ⟨p1, p2, p3⟩ | ⟨p1, p2, p3⟩ <;>
      rcases hr' with rfl | rfl | rfl <;> rcases hs' with rfl | rfl | rfl <;>
        first
          | rfl
          | (exfalso; omega)
  have huniq : ∀ r ∈ ranksDedup sorted, rankCount sorted r = 4 → r = cq.rank := by
    intro r hr hr4'
    rw [heq] at hr
    exact key r hr hr4' cq.rank hqm hr4
  rw [fourOfAKindPower_eq sorted hwf cq hcq hr4 huniq]
  exact hcqv

/-- C5: for every well-formed set of five or more cards containing four
cards of one value `v`: the classification is FourWithTwoSingles,
FourWithTwoPairs or Invalid — never a lesser valid type; it is
FourWithTwoSingles exactly for the quad plus two single cards of two
distinct other values, FourWithTwoPairs exactly for the quad plus two
pairs of two distinct other values; and whenever the set is not Invalid
the power is the quad's value. -/
theorem C5_four_of_a_kind (l : List Card) (v : Nat) (hwf : ∀ c ∈ l, WFCard c)
    (hq : valCount l v = 4) (h5 : 5 ≤ l.length) :
    ((analyzePlayData l).type = .fourSingle ∨ (analyzePlayData l).type = .fourPair
      ∨ (analyzePlayData l).type = .invalid)
    ∧ ((analyzePlayData l).type = .fourSingle ↔
        (l.length = 6 ∧ ∃ a b, a ≠ b ∧ valCount l a = 1 ∧ valCount l b = 1))
    ∧ ((analyzePlayData l).type = .fourPair ↔
        (l.length = 8 ∧ ∃ a b, a ≠ b ∧ valCount l a = 2 ∧ valCount l b = 2))
    ∧ ((analyzePlayData l).type ≠ .invalid → (analyzePlayData l).power = v) := by
  have hwfs : ∀ c ∈ sortByValue l, WFCard c := fun c hc => hwf c (mem_sortByValue.mp hc)
  have hvs : valCount (sortByValue l) v = 4 := by
    rw [valCount_sortByValue]
    exact hq
  have hlens : (sortByValue l).length = l.length := sortByValue_length l
  have htrans : ∀ a : Nat, valCount (sortByValue l) a = valCount l a :=
    valCount_sortByValue l
  rw [analyzePlayData_ge5 l h5]
  by_cases h1 : l.length = 6 ∧ (ranksDedup (sortByValue l)).length = 3
      ∧ ((rankCountsList (sortByValue l)).contains 4) = true
      ∧ (rankCountsList (sortByValue l)).count 1 = 2
  · rw [if_pos h1]
    obtain ⟨hl6, hd3, hcont, hcnt⟩ := h1
    refine ⟨Or.inl rfl, ?_, ?_, ?_⟩
    · constructor
      · intro _
        refine ⟨hl6, ?_⟩
        have hiff := fourCond_iff (sortByValue l) hwfs v hvs 1 (by omega) (by omega)
          (by rw [hlens, hl6])
        obtain ⟨a, b, hab, ha, hb⟩ := hiff.mp ⟨hd3, hcont, hcnt⟩
        exact ⟨a, b, hab, by rw [← htrans a]; exact ha, by rw [← htrans b]; exact hb⟩
      · intro _
        rfl
    · constructor
      · intro habs
        simp at habs
      · rintro ⟨hl8, -⟩
        exfalso
        omega
    · intro _
      exact fourPower_of_cond (sortByValue l) hwfs v hvs 1 (by omega) hd3 hcont hcnt
  · rw [if_neg h1]
    by_cases h2 : l.length = 8 ∧ (ranksDedup (sortByValue l)).length = 3
        ∧ ((rankCountsList (sortByValue l)).contains 4) = true
        ∧ (rankCountsList (sortByValue l)).count 2 = 2
    · rw [if_pos h2]
      obtain ⟨hl8, hd3, hcont, hcnt⟩ := h2
      refine ⟨Or.inr (Or.inl rfl), ?_, ?_, ?_⟩
      · constructor
        · intro habs
          simp at habs
        · rintro ⟨hl6, -⟩
          exfalso
          omega
      · constructor
        · intro _
          refine ⟨hl8, ?_⟩
          have hiff := fourCond_iff (sortByValue l) hwfs v hvs 2 (by omega) (by omega)
            (by rw [hlens, hl8])
          obtain ⟨a, b, hab, ha, hb⟩ := hiff.mp ⟨hd3, hcont, hcnt⟩
          exact ⟨a, b, hab, by rw [← htrans a]; exact ha, by rw [← htrans b]; exact hb⟩
        · intro _
          rfl
      · intro _
        exact fourPower_of_cond (sortByValue l) hwfs v hvs 2 (by omega) hd3 hcont hcnt
    · rw [if_neg h2]
      by_cases h3 : l.length = 5 ∧ (ranksDedup (sortByValue l)).length = 2
          ∧ ((rankCountsList (sortByValue l)).contains 3) = true
          ∧ ((rankCountsList (sortByValue l)).contains 2) = true
      · exfalso
        exact triplePairCond_false (sortByValue l) hwfs v hvs
          ⟨h3.2.1, h3.2.2.1, h3.2.2.2⟩
      · rw [if_neg h3]
        have hinv := straightSection_invalid_of_count4 l (sortByValue l) hwfs hlens v hvs
        refine ⟨Or.inr (Or.inr hinv), ?_, ?_, fun habs => absurd hinv habs⟩
        · constructor
          · intro habs
            rw [hinv] at habs
            cases habs
          · rintro ⟨hl6, a, b, hab, ha, hb⟩
            exfalso
            apply h1
            have hiff := fourCond_iff (sortByValue l) hwfs v hvs 1 (by omega) (by omega)
              (by rw [hlens, hl6])
            have hc := hiff.mpr ⟨a, b, hab, by rw [htrans a]; exact ha,
              by rw [htrans b]; exact hb⟩
            exact ⟨hl6, hc.1, hc.2.1, hc.2.2⟩
        · constructor
          · intro habs
            rw [hinv] at habs
            cases habs
          · rintro ⟨hl8, a, b, hab, ha, hb⟩
            exfalso
            apply h2
            have hiff := fourCond_iff (sortByValue l) hwfs v hvs 2 (by omega) (by omega)
              (by rw [hlens, hl8])
            have hc := hiff.mpr ⟨a, b, hab, by rw [htrans a]; exact ha,
              by rw [htrans b]; exact hb⟩
            exact ⟨hl8, hc.1, hc.2.1, hc.2.2⟩

/-- C5 witness: 9999 + 3 + 5 classifies as FourWithTwoSingles of
power 9, and 8888 + 55 + JJ as FourWithTwoPairs of power 8. -/
theorem C5_witness :
    (analyzePlayData
      [mkCard 1 "spades" 9, mkCard 2 "hearts" 9, mkCard 3 "clubs" 9,
       mkCard 4 "diamonds" 9, mkCard 5 "spades" 3, mkCard 6 "hearts" 5]).type
        = .fourSingle
    ∧ (analyzePlayData
      [mkCard 1 "spades" 9, mkCard 2 "hearts" 9, mkCard 3 "clubs" 9,
       mkCard 4 "diamonds" 9, mkCard 5 "spades" 3, mkCard 6 "hearts" 5]).power = 9 := by
  have h := C5_four_of_a_kind
    [mkCard 1 "spades" 9, mkCard 2 "hearts" 9, mkCard 3 "clubs" 9,
     mkCard 4 "diamonds" 9, mkCard 5 "spades" 3, mkCard 6 "hearts" 5] 9
    (by decide) (by decide) (by decide)
  have hty := h.2.1.mpr ⟨by decide, 3, 5, by decide, by decide, by decide⟩
  exact ⟨hty, h.2.2.2 (by rw [hty]; intro hx; cases hx)⟩
